import Mathlib

/-!
Shallow embedding of the relay lifecycle controller of
`drone_dynamic_deploy_ascii.cc` (src/unnamed/part_004): metrics aggregation,
the RSSI estimator, the deployment decision engine, the auto-balance
positioner and the collision resolver, together with theorems settling the
specification claims about them.

Doubles that only ever hold rational values (positions, counters, averages)
are modelled as `ℚ`; quantities produced by `log10`/`sqrt` (signal estimates,
3-D hop distances) live in `ℝ`.  `uint64_t` counters are modelled as `ℕ`
(they are incremented at most once per packet over a 60-second simulation,
so wrap-around is unreachable).
-/

namespace DroneDeploy

/-- ns-3 `Vector` (y is always 0 in this program; z is 0 for the user and the
access point and `g_droneHeight` for drones; all position updates in the
controller preserve y and z). -/
structure Vec where
  x : ℚ
  y : ℚ
  z : ℚ
deriving DecidableEq

/-- One relay drone: its mobility-model position and velocity and its
`droneDeployed` flag (`false` = staged). -/
structure Drone where
  pos : Vec
  vel : Vec
  deployed : Bool
deriving DecidableEq

instance : Inhabited Vec := ⟨⟨0, 0, 0⟩⟩

instance : Inhabited Drone := ⟨⟨default, default, false⟩⟩

/-- The controller's global mutable state: metric counters (cumulative,
windowed and the legacy `g_txPackets`/`g_rxPackets`/`l_*` mirrors), the
RTT bookkeeping, the `g_sentTimes` map (as an association list keyed by
packet uid, times in milliseconds) and the node roster
(`allNodes`: user = node 0, drones = nodes 1..N, AP = node N+1). -/
structure State where
  txTotal : ℕ
  rxTotal : ℕ
  txW : ℕ
  rxW : ℕ
  avgRttTotal : ℚ
  avgRttW : ℚ
  rttSamplesTotal : ℕ
  rttSamplesW : ℕ
  lastRtt : ℚ
  rttSamples : ℕ
  avgRtt : ℚ
  gTx : ℕ
  gRx : ℕ
  lTx : ℕ
  lRx : ℕ
  sentTimes : List (ℕ × ℚ)
  userPos : Vec
  userVel : Vec
  apPos : Vec
  drones : List Drone
deriving DecidableEq

-- ----- configuration constants (the defaults of the source) -----

/-- `g_lossDeployThresholdPct = 20.0`. -/
def g_lossDeployThresholdPct : ℚ := 20

/-- `g_rttDeployThresholdMs = 100.0`. -/
def g_rttDeployThresholdMs : ℚ := 100

/-- `g_rssiDeployThresholdDb = -65.0`. -/
def g_rssiDeployThresholdDb : ℝ := -65

/-- `MAX_HOP_DISTANCE = 40.0` (local constant of `DeployNextDroneIfNeeded`). -/
def MAX_HOP_DISTANCE : ℝ := 40

/-- `MIN_SEPARATION = 0.5` (local constant of `AutoBalanceDrones`). -/
def MIN_SEPARATION : ℚ := 1/2

/-- `g_moveSpeed = 3.0`. -/
def g_moveSpeed : ℚ := 3

/-- `g_rssiMoveThresholdDb = 3.0` (used as a distance threshold in metres). -/
def g_rssiMoveThresholdDb : ℝ := 3

/-- `g_balanceInterval = Seconds(1.0)`, as a number of seconds. -/
def g_balanceInterval : ℚ := 1

-- ----- Metrics aggregator: the trace callbacks -----

/-- `g_sentTimes[uid] = now` — `std::map::operator[]` assignment: any earlier
binding of the key is replaced. -/
def mapStore (l : List (ℕ × ℚ)) (uid : ℕ) (t : ℚ) : List (ℕ × ℚ) :=
  (l.filter (fun p => p.1 ≠ uid)) ++ [(uid, t)]

/-- `g_sentTimes.find(uid)`. -/
def mapFind (l : List (ℕ × ℚ)) (uid : ℕ) : Option ℚ :=
  (l.find? (fun p => p.1 = uid)).map Prod.snd

/-- `g_sentTimes.erase(it)` for the iterator found for `uid`. -/
def mapErase (l : List (ℕ × ℚ)) (uid : ℕ) : List (ℕ × ℚ) :=
  l.filter (fun p => p.1 ≠ uid)

/-- `TxTrace`: increments the legacy, cumulative and windowed send counters
and records the send timestamp keyed by the packet uid. -/
def txTrace (s : State) (uid : ℕ) (now : ℚ) : State :=
  { s with
    lTx := s.lTx + 1
    gTx := s.gTx + 1
    txTotal := s.txTotal + 1
    txW := s.txW + 1
    sentTimes := mapStore s.sentTimes uid now }

/-- `RxTrace`: increments the legacy, cumulative and windowed receive
counters. -/
def rxTrace (s : State) : State :=
  { s with
    lRx := s.lRx + 1
    gRx := s.gRx + 1
    rxTotal := s.rxTotal + 1
    rxW := s.rxW + 1 }

/-- `ClientRxTrace`: on a round-trip completion, looks up the stored send
time for the uid; if absent the call falls through with no state change;
if present it updates the running RTT averages of both series, mirrors the
totals into the legacy fields, and erases the stored timestamp. -/
def clientRxTrace (s : State) (uid : ℕ) (now : ℚ) : State :=
  match mapFind s.sentTimes uid with
  | none => s
  | some t0 =>
    let rttMs : ℚ := now - t0
    let nT : ℕ := s.rttSamplesTotal + 1
    let avgT : ℚ := s.avgRttTotal + (rttMs - s.avgRttTotal) / (nT : ℚ)
    let nW : ℕ := s.rttSamplesW + 1
    let avgW : ℚ := s.avgRttW + (rttMs - s.avgRttW) / (nW : ℚ)
    { s with
      lastRtt := rttMs
      rttSamplesTotal := nT
      avgRttTotal := avgT
      rttSamplesW := nW
      avgRttW := avgW
      rttSamples := nT
      avgRtt := avgT
      sentTimes := mapErase s.sentTimes uid }

-- ----- Loss rate (the three computation sites) -----

/-- The loss-rate pattern `tx > 0 ? 100*(1 - rx/tx) : 0`. -/
def lossRateOf (tx rx : ℕ) : ℚ :=
  if 0 < tx then 100 * (1 - (rx : ℚ) / (tx : ℚ)) else 0

/-- The `lossRate` computed at the head of `DeployNextDroneIfNeeded` from the
windowed counters. -/
def deployLossRate (s : State) : ℚ :=
  if 0 < s.txW then 100 * (1 - (s.rxW : ℚ) / (s.txW : ℚ)) else 0

/-- The `lossTotal` computed in `Monitor` from the cumulative counters. -/
def monitorLossTotal (s : State) : ℚ :=
  if 0 < s.txTotal then 100 * (1 - (s.rxTotal : ℚ) / (s.txTotal : ℚ)) else 0

/-- The `lossWindow` computed in `Monitor` from the windowed counters. -/
def monitorLossWindow (s : State) : ℚ :=
  if 0 < s.txW then 100 * (1 - (s.rxW : ℚ) / (s.txW : ℚ)) else 0

-- ----- RSSI estimator -----

/-- `rssiCalcFromDistance`: clamp the distance to the reference distance
`d0 = 1`, apply the log-distance path-loss model
`Pt_dBm - 10 * pathLossExp * log10(distance / d0)` with `Pt_dBm = 20` and
`pathLossExp = 2.5`, then add the Gaussian noise draw of this call (passed
here as the explicit argument `noise`; the spec's testable properties fix
it at 0). -/
noncomputable def rssiCalcFromDistance (noise : ℝ) (distance : ℝ) : ℝ :=
  20 - 10 * 2.5 * Real.logb 10 ((if distance < 1 then 1 else distance) / 1) + noise

-- ----- Geometry -----

/-- `MobilityModel::GetDistanceFrom`: 3-D Euclidean distance. -/
noncomputable def nsDist (a b : Vec) : ℝ :=
  Real.sqrt (((a.x - b.x) ^ 2 + (a.y - b.y) ^ 2 + (a.z - b.z) ^ 2 : ℚ) : ℝ)

/-- Position of `allNodes.Get i`: node 0 is the user, nodes 1..N the drones,
node N+1 the access point. -/
def nodePosOf (s : State) (i : ℕ) : Vec :=
  if i = 0 then s.userPos
  else
    match s.drones.get? (i - 1) with
    | some d => d.pos
    | none => s.apPos

/-- The `activeNodes` chain positions built in `DeployNextDroneIfNeeded` and
`Monitor`: the user, then the deployed drones in slot order, then the AP. -/
def activeChain (s : State) : List Vec :=
  s.userPos :: ((s.drones.filter (fun d => d.deployed)).map Drone.pos ++ [s.apPos])

/-- The consecutive hop distances of the active chain (in slot order, as the
source iterates them). -/
noncomputable def hopDists (s : State) : List ℝ :=
  ((activeChain s).zip (activeChain s).tail).map (fun p => nsDist p.1 p.2)

/-- `minHopRssi`: fold of `std::min` over the per-hop signal estimates,
starting from the sentinel `1000.0`; the i-th call to the estimator consumes
the i-th noise draw `ν i`. -/
noncomputable def minHopRssi (ν : ℕ → ℝ) (s : State) : ℝ :=
  ((hopDists s).enum.map (fun p => rssiCalcFromDistance (ν p.1) p.2)).foldl min 1000

/-- The second deployment-criteria loop of `DeployNextDroneIfNeeded`: `poor`
is also forced when some hop distance exceeds `MAX_HOP_DISTANCE`. -/
def HopTooFar (s : State) : Prop :=
  ∃ d ∈ hopDists s, MAX_HOP_DISTANCE < d

/-- The maximum hop distance of the active chain (the quantity the spec's
trigger wording refers to; the source tests `∃ hop > max` by a loop). -/
noncomputable def maxHopDist (s : State) : ℝ :=
  (hopDists s).foldl max 0

-- ----- Deployment decision engine -----

/-- The deployment trigger `poor` exactly as `DeployNextDroneIfNeeded`
computes it: the three-way threshold disjunction, then the hop-distance
loop OR-ed on top. -/
def Trigger (ν : ℕ → ℝ) (s : State) : Prop :=
  deployLossRate s > g_lossDeployThresholdPct ∨
    s.avgRttW > g_rttDeployThresholdMs ∨
    minHopRssi ν s < g_rssiDeployThresholdDb ∨
    HopTooFar s

/-- `nextIndex` scan: the first (lowest-index) staged drone, as a 0-based
index into the drone slot list (`none` when every drone is deployed). -/
def nextStaged (s : State) : Option ℕ :=
  s.drones.findIdx? (fun d => !d.deployed)

/-- The `activeXs` list of `DeployNextDroneIfNeeded`: x positions of user,
deployed drones and AP, sorted ascending. -/
def sortedActiveXs (s : State) : List ℚ :=
  List.insertionSort (· ≤ ·)
    (s.userPos.x :: ((s.drones.filter (fun d => d.deployed)).map (fun d => d.pos.x) ++ [s.apPos.x]))

/-- The adjacent gap of the sorted position list at index `j`. -/
def gapAt (xs : List ℚ) (j : ℕ) : ℚ :=
  xs.getD (j + 1) 0 - xs.getD j 0

/-- One iteration of the largest-gap scan: strict `gap > bestGap` update, so
the first of several equal largest gaps wins. -/
def gapStep (xs : List ℚ) (b : ℚ × ℕ) (j : ℕ) : ℚ × ℕ :=
  if gapAt xs j > b.1 then (gapAt xs j, j) else b

/-- The largest-adjacent-gap scan of `DeployNextDroneIfNeeded`: fold with
`bestGap = -1.0, bestIdx = 0` over the adjacent pairs. Returns
`(bestGap, bestIdx)`. -/
def bestGapFold (xs : List ℚ) : ℚ × ℕ :=
  (List.range (xs.length - 1)).foldl (gapStep xs) (-1, 0)

/-- The state mutation performed by `DeployNextDroneIfNeeded` once `poor`
holds and a staged drone `k` (0-based) exists: place drone `k` at the
midpoint of the largest adjacent gap of the sorted pre-activation chain
positions (keeping its y and z), zero its velocity, mark it deployed, and
reset the windowed metrics together with the legacy `g_txPackets` /
`g_rxPackets` window mirrors.  (The `ConstantVelocityMobilityModel` downcast
always succeeds for drones, so its failure path is not modelled.) -/
def deployAction (s : State) (k : ℕ) : State :=
  let xs := sortedActiveXs s
  let bi := (bestGapFold xs).2
  let targetX := (xs.getD bi 0 + xs.getD (bi + 1) 0) / 2
  { s with
    drones := s.drones.set k
      (match s.drones.get? k with
       | some d => { pos := ⟨targetX, d.pos.y, d.pos.z⟩, vel := ⟨0, 0, 0⟩, deployed := true }
       | none => default)
    txW := 0
    rxW := 0
    avgRttW := 0
    rttSamplesW := 0
    gTx := 0
    gRx := 0 }

open Classical in
/-- `DeployNextDroneIfNeeded`: return unchanged unless `poor` holds and a
staged drone remains; otherwise deploy the lowest staged drone. -/
noncomputable def deployStep (ν : ℕ → ℝ) (s : State) : State :=
  if Trigger ν s then
    match nextStaged s with
    | some k => deployAction s k
    | none => s
  else s

/-- `Monitor`: the reporting part only reads state (its text output is out of
scope); its one state effect is the trailing `DeployNextDroneIfNeeded` call. -/
noncomputable def monitorStep (ν : ℕ → ℝ) (s : State) : State :=
  deployStep ν s

-- ----- Auto-balance positioner -----

open Classical in
/-- One iteration of the movement loop of `AutoBalanceDrones` for node index
`di` (1-based): skip staged drones; otherwise read the positions of nodes
`di-1` and `di+1` from the CURRENT state (so a neighbour moved earlier in the
same tick is read at its updated position), compare the two distances against
the movement threshold, set the velocity, and advance the x position by one
explicit Euler step of `g_balanceInterval`. -/
noncomputable def moveOne (s : State) (di : ℕ) : State :=
  match s.drones.get? (di - 1) with
  | none => s
  | some d =>
    if d.deployed = false then s
    else
      let leftDist := nsDist d.pos (nodePosOf s (di - 1))
      let rightDist := nsDist d.pos (nodePosOf s (di + 1))
      let diff := leftDist - rightDist
      let vx : ℚ :=
        if diff > g_rssiMoveThresholdDb then g_moveSpeed
        else if diff < -g_rssiMoveThresholdDb then -g_moveSpeed
        else 0
      let futureX := d.pos.x + vx * g_balanceInterval
      { s with
        drones := s.drones.set (di - 1)
          { pos := ⟨futureX, d.pos.y, d.pos.z⟩, vel := ⟨vx, 0, 0⟩, deployed := true } }

/-- The movement phase of `AutoBalanceDrones`: the loop `di = 1..N` in
ascending node order. -/
noncomputable def movePhase (s : State) : State :=
  (List.range' 1 s.drones.length).foldl moveOne s

/-- One iteration of the separation-enforcement loop: the pair `(i, i+1)` is
tested against the FROZEN pre-sweep sorted positions `xs` (the source reads
`dronePositions[..].first`, which is never updated), while the corrected
positions are written through the mobility models, modelled by `pos`. -/
def sweepStep (xs : List ℚ) (pos : List ℚ) (i : ℕ) : List ℚ :=
  match xs.get? i, xs.get? (i + 1) with
  | some x1, some x2 =>
    if x2 - x1 < MIN_SEPARATION then
      let midpoint := (x1 + x2) / 2
      (pos.set i (midpoint - MIN_SEPARATION / 2)).set (i + 1) (midpoint + MIN_SEPARATION / 2)
    else pos
  | _, _ => pos

/-- The whole separation-enforcement sweep over the sorted active-drone x
positions: a single ascending pass, later writes overriding earlier ones. -/
def resolveSweep (xs : List ℚ) : List ℚ :=
  (List.range (xs.length - 1)).foldl (sweepStep xs) xs

/-- Accumulator invariant of the largest-gap scan after `k` iterations: the
held gap is the gap at the held index, it dominates all gaps seen so far,
and it strictly dominates every earlier gap. -/
def GoodAcc (xs : List ℚ) (k : ℕ) (b : ℚ × ℕ) : Prop :=
  b.2 < k ∧ b.1 = gapAt xs b.2 ∧ (∀ j < k, gapAt xs j ≤ b.1) ∧ ∀ j < b.2, gapAt xs j < b.1

/-- The sweep prefix: the state of the separation-enforcement pass after its
first `k` iterations. -/
def sweepPartial (xs : List ℚ) (k : ℕ) : List ℚ :=
  (List.range k).foldl (sweepStep xs) xs

/-- Pair `(i, i+1)` of the frozen sorted positions violates the minimum
separation (and is in range). -/
def pairClose (xs : List ℚ) (i : ℕ) : Prop :=
  i + 1 < xs.length ∧ xs.getD (i + 1) 0 - xs.getD i 0 < MIN_SEPARATION

instance (xs : List ℚ) (i : ℕ) : Decidable (pairClose xs i) := by
  unfold pairClose
  infer_instance

/-- Midpoint of the frozen pair `(i, i+1)`. -/
def gapMid (xs : List ℚ) (i : ℕ) : ℚ :=
  (xs.getD i 0 + xs.getD (i + 1) 0) / 2

/-- Closed form of the sweep's outcome at index `j` (last write wins): a
violated pair `(j, j+1)` writes `j` last, else a violated pair `(j-1, j)`
writes `j`, else `j` keeps its input position. -/
def resolvedVal (xs : List ℚ) (j : ℕ) : ℚ :=
  if pairClose xs j then gapMid xs j - MIN_SEPARATION / 2
  else if j ≠ 0 ∧ pairClose xs (j - 1) then gapMid xs (j - 1) + MIN_SEPARATION / 2
  else xs.getD j 0

/-- The collision-prevention phase of `AutoBalanceDrones` on the state:
collect the deployed drones with their x positions, sort by x, run the
sweep, and write the resulting x positions back to the corresponding
drones (keeping y and z). -/
def resolveApply (s : State) : State :=
  let pairs : List (ℚ × ℕ) :=
    ((s.drones.enum.filter (fun p => p.2.deployed)).map (fun p => (p.2.pos.x, p.1)))
  let sorted := List.insertionSort (fun a b => a.1 ≤ b.1) pairs
  let newXs := resolveSweep (sorted.map Prod.fst)
  (sorted.zip newXs).foldl
    (fun st p =>
      { st with
        drones := st.drones.set p.1.2
          (match st.drones.get? p.1.2 with
           | some d => { d with pos := ⟨p.2, d.pos.y, d.pos.z⟩ }
           | none => default) })
    s

/-- `AutoBalanceDrones`: early return when there are no drone slots;
otherwise the movement phase followed by the separation sweep. (The
trailing self-rescheduling is the external clock's concern.) -/
noncomputable def balanceStep (s : State) : State :=
  if s.drones.length = 0 then s else resolveApply (movePhase s)

/-- Passage of `dt` simulated seconds between controller activations: the
`ConstantVelocityMobilityModel`s of the user and the drones advance their
positions; the AP's `ConstantPositionMobilityModel` stays put. -/
def advanceStep (dt : ℚ) (s : State) : State :=
  { s with
    userPos := ⟨s.userPos.x + s.userVel.x * dt, s.userPos.y + s.userVel.y * dt,
      s.userPos.z + s.userVel.z * dt⟩
    drones := s.drones.map (fun d =>
      { d with pos := ⟨d.pos.x + d.vel.x * dt, d.pos.y + d.vel.y * dt,
          d.pos.z + d.vel.z * dt⟩ }) }

-- ----- Runs -----

/-- One controller event: a traffic callback, a monitor tick (whose state
effect is the deployment decision), a balance tick, or passage of time. -/
inductive Step : State → State → Prop
  | tx (s : State) (uid : ℕ) (now : ℚ) : Step s (txTrace s uid now)
  | rx (s : State) : Step s (rxTrace s)
  | clientRx (s : State) (uid : ℕ) (now : ℚ) : Step s (clientRxTrace s uid now)
  | monitor (s : State) (ν : ℕ → ℝ) : Step s (monitorStep ν s)
  | balance (s : State) : Step s (balanceStep s)
  | advance (s : State) (dt : ℚ) : Step s (advanceStep dt s)

/-- A valid start state: all counters zero, no outstanding send timestamps,
and the drone flags of one of the three init modes (`deploy` stages every
drone; `even` and `cluster` mark every drone deployed). Positions are
arbitrary (they are configured from the command line). -/
def InitialState (s : State) : Prop :=
  s.txTotal = 0 ∧ s.rxTotal = 0 ∧ s.txW = 0 ∧ s.rxW = 0 ∧
    s.avgRttTotal = 0 ∧ s.avgRttW = 0 ∧ s.rttSamplesTotal = 0 ∧ s.rttSamplesW = 0 ∧
    s.lastRtt = 0 ∧ s.rttSamples = 0 ∧ s.avgRtt = 0 ∧
    s.gTx = 0 ∧ s.gRx = 0 ∧ s.lTx = 0 ∧ s.lRx = 0 ∧ s.sentTimes = [] ∧
    ((∀ d ∈ s.drones, d.deployed = false) ∨ (∀ d ∈ s.drones, d.deployed = true))

/-- Reachability: a run is any sequence of steps from a valid start state. -/
inductive Reach : State → Prop
  | init (s : State) (h : InitialState s) : Reach s
  | step (s s' : State) (h : Reach s) (hs : Step s s') : Reach s'

-- ----- The movement phase as claim C6 describes it (for comparison) -----

/-- The position of the active-chain neighbour on the user side of drone
slot `k` (0-based), per the claim's words: the nearest deployed drone in a
lower slot, or the user when none exists. -/
def leftChainNbrPos (s : State) (k : ℕ) : Vec :=
  (((s.drones.take k).filter (fun d => d.deployed)).getLast?.map Drone.pos).getD s.userPos

/-- The position of the active-chain neighbour on the AP side of drone slot
`k` (0-based), per the claim's words: the nearest deployed drone in a higher
slot, or the AP when none exists. -/
def rightChainNbrPos (s : State) (k : ℕ) : Vec :=
  (((s.drones.drop (k + 1)).filter (fun d => d.deployed)).head?.map Drone.pos).getD s.apPos

open Classical in
/-- The auto-balance movement tick exactly as claim C6 states it (this
definition follows the claim's words, for comparison with `movePhase`):
every deployed relay reads its ACTIVE-CHAIN neighbours' positions as they
were at the START of the tick, and all relays update simultaneously. -/
noncomputable def movePhaseSimultaneous (s : State) : State :=
  { s with
    drones := s.drones.enum.map (fun p =>
      if p.2.deployed then
        let leftDist := nsDist p.2.pos (leftChainNbrPos s p.1)
        let rightDist := nsDist p.2.pos (rightChainNbrPos s p.1)
        let diff := leftDist - rightDist
        let vx : ℚ :=
          if diff > g_rssiMoveThresholdDb then g_moveSpeed
          else if diff < -g_rssiMoveThresholdDb then -g_moveSpeed
          else 0
        { pos := ⟨p.2.pos.x + vx * g_balanceInterval, p.2.pos.y, p.2.pos.z⟩,
          vel := ⟨vx, 0, 0⟩, deployed := true }
      else p.2) }

-- ----- Concrete states used by the witnesses and counterexamples -----

/-- The zero vector. -/
def vec0 : Vec := ⟨0, 0, 0⟩

/-- The `deploy`-mode initial state with two staged drones: user at the
origin moving at 2.5 m/s, AP at the origin, drones staged near the AP at
height 10 (exactly the program's initial configuration). -/
def sInit : State :=
  { txTotal := 0, rxTotal := 0, txW := 0, rxW := 0
    avgRttTotal := 0, avgRttW := 0, rttSamplesTotal := 0, rttSamplesW := 0
    lastRtt := 0, rttSamples := 0, avgRtt := 0
    gTx := 0, gRx := 0, lTx := 0, lRx := 0, sentTimes := []
    userPos := ⟨0, 0, 0⟩, userVel := ⟨5/2, 0, 0⟩, apPos := ⟨0, 0, 0⟩
    drones := [⟨⟨0, 0, 10⟩, vec0, false⟩, ⟨⟨-1, 0, 10⟩, vec0, false⟩] }

/-- `sInit` after the user has walked to x = 50: the single active hop
(user to AP) is 50 m long, which exceeds `MAX_HOP_DISTANCE`. -/
def sFar : State :=
  { sInit with userPos := ⟨50, 0, 0⟩ }

/-- A state with some traffic recorded: 4 sends and 1 receive in the window
and one outstanding send timestamp. -/
def sMetrics : State :=
  { sInit with txW := 4, rxW := 1, txTotal := 4, rxTotal := 1, sentTimes := [(7, 2)] }

/-- A balance-tick scenario: user at x = 38.5, deployed drones at x = 31 and
x = 24, a staged drone at x = 12, AP at the origin (drones at height 10).
Every hop distance involved is rational by construction. -/
def sBal : State :=
  { sInit with
    userPos := ⟨77/2, 0, 0⟩
    drones := [⟨⟨31, 0, 10⟩, vec0, true⟩, ⟨⟨24, 0, 10⟩, vec0, true⟩,
      ⟨⟨12, 0, 10⟩, vec0, false⟩] }

/-- `sBal` after the movement iteration of drone slot 1: its left distance
(12.5 m to the user) exceeds its right distance (7 m to drone 2) by more
than the 3 m threshold, so it moves +3 m to x = 34. -/
def sBal1 : State :=
  { sBal with
    drones := [⟨⟨34, 0, 10⟩, ⟨3, 0, 0⟩, true⟩, ⟨⟨24, 0, 10⟩, vec0, true⟩,
      ⟨⟨12, 0, 10⟩, vec0, false⟩] }

/-- `sBal1` after the movement iteration of drone slot 2: reading drone 1's
ALREADY-UPDATED position x = 34 (10 m away) and the STAGED drone 3 at
x = 12 (12 m away), the 2 m imbalance is under the threshold, so it stays
at x = 24 with velocity 0. -/
def sBal2 : State :=
  { sBal with
    drones := [⟨⟨34, 0, 10⟩, ⟨3, 0, 0⟩, true⟩, ⟨⟨24, 0, 10⟩, ⟨0, 0, 0⟩, true⟩,
      ⟨⟨12, 0, 10⟩, vec0, false⟩] }

/-- What the claim's simultaneous chain-neighbour tick produces at `sBal`:
drone 2 reads drone 1's start-of-tick position (7 m) and the AP (26 m), a
19 m imbalance, and moves -3 m to x = 21. -/
def sBalSim : State :=
  { sBal with
    drones := [⟨⟨34, 0, 10⟩, ⟨3, 0, 0⟩, true⟩, ⟨⟨21, 0, 10⟩, ⟨-3, 0, 0⟩, true⟩,
      ⟨⟨12, 0, 10⟩, vec0, false⟩] }

/-- The all-zero noise stream (the spec's properties fix the noise at 0). -/
def noiseZero : ℕ → ℝ := fun _ => 0

-- ===== Theorems =====

/-- C7: with the random noise term fixed at zero, the link-quality estimate
is monotonically non-increasing in distance, strictly decreasing at or above
the reference distance 1, and any distance below the reference distance is
clamped to it before the logarithm is taken. -/
theorem C7_signal_monotone (d1 d2 : ℝ) :
    (1 ≤ d1 → d1 ≤ d2 → rssiCalcFromDistance 0 d2 ≤ rssiCalcFromDistance 0 d1) ∧
    (1 ≤ d1 → d1 < d2 → rssiCalcFromDistance 0 d2 < rssiCalcFromDistance 0 d1) ∧
    (d1 < 1 → rssiCalcFromDistance 0 d1 = rssiCalcFromDistance 0 1) := by
  unfold rssiCalcFromDistance
  refine ⟨?_, ?_, ?_⟩
  · intro h1 h12
    rw [if_neg (not_lt.2 h1), if_neg (not_lt.2 (h1.trans h12))]
    have hlog : Real.logb 10 d1 ≤ Real.logb 10 d2 :=
      Real.logb_le_logb_of_le (by norm_num) (by linarith) h12
    simp only [div_one]
    linarith
  · intro h1 h12
    rw [if_neg (not_lt.2 h1), if_neg (not_lt.2 (h1.trans h12.le))]
    have hlog : Real.logb 10 d1 < Real.logb 10 d2 :=
      Real.logb_lt_logb (by norm_num) (by linarith) h12
    simp only [div_one]
    linarith
  · intro h1
    rw [if_pos h1, if_neg (by norm_num : ¬ (1:ℝ) < 1)]

/-- Witness for C7: a strict decrease from distance 1 to distance 10 and the
clamping of the sub-reference distance 1/2, instances of `C7_signal_monotone`. -/
theorem C7_signal_monotone_witness :
    rssiCalcFromDistance 0 10 < rssiCalcFromDistance 0 1 ∧
    rssiCalcFromDistance 0 (1/2) = rssiCalcFromDistance 0 1 :=
  ⟨(C7_signal_monotone 1 10).2.1 le_rfl (by norm_num),
    (C7_signal_monotone (1/2) 0).2.2 (by norm_num)⟩

/-- C8: in every place a loss rate is computed (the deployment decision and
the two `Monitor` reports) it equals `100 * (1 - rx/tx)` when the tx count
is positive and is exactly 0 when the tx count is zero; all three sites
compute the one total function `lossRateOf`, which is total on `ℚ` (no NaN). -/
theorem C8_loss_rate_convention (s : State) :
    (0 < s.txW → deployLossRate s = 100 * (1 - (s.rxW : ℚ) / (s.txW : ℚ))) ∧
    (s.txW = 0 → deployLossRate s = 0) ∧
    (0 < s.txTotal → monitorLossTotal s = 100 * (1 - (s.rxTotal : ℚ) / (s.txTotal : ℚ))) ∧
    (s.txTotal = 0 → monitorLossTotal s = 0) ∧
    (s.txW = 0 → monitorLossWindow s = 0) ∧
    deployLossRate s = lossRateOf s.txW s.rxW ∧
    monitorLossTotal s = lossRateOf s.txTotal s.rxTotal ∧
    monitorLossWindow s = lossRateOf s.txW s.rxW := by
  unfold deployLossRate monitorLossTotal monitorLossWindow lossRateOf
  refine ⟨fun h => if_pos h, fun h => ?_, fun h => if_pos h, fun h => ?_, fun h => ?_,
    rfl, rfl, rfl⟩ <;> rw [if_neg (by omega)]

/-- Witness for C8: at `sMetrics` (4 sends, 1 receive in the window) the
deployment loss rate is 75 %, and at `sInit` (no traffic yet) it is 0. -/
theorem C8_loss_rate_convention_witness :
    deployLossRate sMetrics = 100 * (1 - (1 : ℚ) / 4) ∧ monitorLossTotal sInit = 0 :=
  ⟨(C8_loss_rate_convention sMetrics).1 (by norm_num [sMetrics, sInit]),
    (C8_loss_rate_convention sInit).2.2.2.1 rfl⟩

/-- After erasing `uid` from the timestamp map, looking `uid` up fails. -/
theorem mapFind_mapErase (l : List (ℕ × ℚ)) (uid : ℕ) :
    mapFind (mapErase l uid) uid = none := by
  unfold mapFind mapErase
  rw [Option.map_eq_none', List.find?_eq_none]
  intro p hp
  have := (List.mem_filter.mp hp).2
  simpa using this

/-- A round-trip completion whose uid has no stored timestamp is a no-op. -/
theorem clientRxTrace_of_notFound (s : State) (uid : ℕ) (now : ℚ)
    (h : mapFind s.sentTimes uid = none) : clientRxTrace s uid now = s := by
  unfold clientRxTrace
  rw [h]

/-- A round-trip completion whose uid is present erases that timestamp. -/
theorem clientRxTrace_sentTimes_of_found (s : State) (uid : ℕ) (now t0 : ℚ)
    (h : mapFind s.sentTimes uid = some t0) :
    (clientRxTrace s uid now).sentTimes = mapErase s.sentTimes uid := by
  unfold clientRxTrace
  rw [h]

/-- C9: a round-trip completion for a packet identifier with no stored send
timestamp leaves the whole state unchanged; for a present identifier the
stored timestamp is removed, so a second completion for the same identifier
is subsequently a no-op. -/
theorem C9_unknown_roundtrip_ignored (s : State) (uid : ℕ) (now now' : ℚ) :
    (mapFind s.sentTimes uid = none → clientRxTrace s uid now = s) ∧
    (∀ t0, mapFind s.sentTimes uid = some t0 →
      mapFind (clientRxTrace s uid now).sentTimes uid = none ∧
      clientRxTrace (clientRxTrace s uid now) uid now' = clientRxTrace s uid now) := by
  refine ⟨clientRxTrace_of_notFound s uid now, fun t0 h => ?_⟩
  have hnone : mapFind (clientRxTrace s uid now).sentTimes uid = none := by
    rw [clientRxTrace_sentTimes_of_found s uid now t0 h]
    exact mapFind_mapErase s.sentTimes uid
  exact ⟨hnone, clientRxTrace_of_notFound _ uid now' hnone⟩

/-- Witness for C9: at `sInit` (empty map) a completion for uid 7 is a
no-op; at `sMetrics` (uid 7 outstanding) a completion consumes the
timestamp and a duplicate completion is then ignored, instances of
`C9_unknown_roundtrip_ignored`. -/
theorem C9_unknown_roundtrip_ignored_witness :
    clientRxTrace sInit 7 5 = sInit ∧
    mapFind (clientRxTrace sMetrics 7 5).sentTimes 7 = none ∧
    clientRxTrace (clientRxTrace sMetrics 7 5) 7 9 = clientRxTrace sMetrics 7 5 :=
  ⟨(C9_unknown_roundtrip_ignored sInit 7 5 9).1 rfl,
    (C9_unknown_roundtrip_ignored sMetrics 7 5 9).2 2 rfl⟩

/-- Generic fold characterization: `foldl max` exceeds a bound iff the seed
does or some list element does. -/
theorem lt_foldl_max (l : List ℝ) (a c : ℝ) :
    c < l.foldl max a ↔ c < a ∨ ∃ x ∈ l, c < x := by
  induction l generalizing a with
  | nil => simp
  | cons y t ih =>
    rw [List.foldl_cons, ih]
    simp only [lt_max_iff, List.mem_cons, exists_eq_or_imp, or_assoc]

/-- The source's hop-distance loop (`poor = true` as soon as some hop
exceeds `MAX_HOP_DISTANCE`) is equivalent to comparing the maximum hop
distance against the threshold. -/
theorem hopTooFar_iff_maxHopDist (s : State) :
    HopTooFar s ↔ maxHopDist s > MAX_HOP_DISTANCE := by
  unfold HopTooFar maxHopDist
  rw [gt_iff_lt, lt_foldl_max]
  have h0 : ¬ MAX_HOP_DISTANCE < (0 : ℝ) := by norm_num [MAX_HOP_DISTANCE]
  simp [h0]

/-- What `nextStaged s = some k` means: drone `k` exists and is staged, and
every lower-index drone is deployed. -/
theorem nextStaged_spec (s : State) (k : ℕ) (h : nextStaged s = some k) :
    ∃ hk : k < s.drones.length,
      (s.drones.get ⟨k, hk⟩).deployed = false ∧
        ∀ j (hj : j < k), (s.drones.get ⟨j, Nat.lt_trans hj hk⟩).deployed = true := by
  unfold nextStaged at h
  rw [List.findIdx?_eq_some_iff_getElem] at h
  obtain ⟨hk, hpk, hprev⟩ := h
  refine ⟨hk, by simpa using hpk, fun j hj => ?_⟩
  have := hprev j hj
  simpa using this

/-- When the trigger fails, `DeployNextDroneIfNeeded` returns unchanged. -/
theorem deployStep_of_notTrigger (ν : ℕ → ℝ) (s : State) (h : ¬ Trigger ν s) :
    deployStep ν s = s := by
  unfold deployStep
  rw [if_neg h]

/-- When every drone is deployed, `DeployNextDroneIfNeeded` returns
unchanged. -/
theorem deployStep_of_noStaged (ν : ℕ → ℝ) (s : State) (h : nextStaged s = none) :
    deployStep ν s = s := by
  unfold deployStep
  split
  · rw [h]
  · rfl

/-- When the trigger holds and a staged drone remains, `deployStep` performs
the deployment action on the lowest staged slot. -/
theorem deployStep_of_trigger (ν : ℕ → ℝ) (s : State) (k : ℕ) (hT : Trigger ν s)
    (hk : nextStaged s = some k) : deployStep ν s = deployAction s k := by
  unfold deployStep
  rw [if_pos hT, hk]

/-- A deployment changes the state: the activated drone's flag flips. -/
theorem deployAction_ne (s : State) (k : ℕ) (hk : nextStaged s = some k) :
    deployAction s k ≠ s := by
  obtain ⟨hlt, hdep, -⟩ := nextStaged_spec s k hk
  intro heq
  have hget : s.drones.get? k = some (s.drones.get ⟨k, hlt⟩) := List.get?_eq_get hlt
  have hset : ((deployAction s k).drones.get? k).map Drone.deployed = some true := by
    simp only [deployAction]
    rw [hget]
    simp only [List.get?_eq_getElem?]
    rw [List.getElem?_set_eq_of_lt _ (by simpa using hlt)]
    rfl
  rw [heq, hget] at hset
  simp only [Option.map_some', Option.some.injEq] at hset
  rw [hdep] at hset
  exact Bool.false_ne_true hset

/-- C1: the deployment decision deploys a relay exactly when the trigger
condition holds (and a staged relay remains), the trigger being the logical
OR of the four threshold comparisons — windowed loss rate, windowed average
RTT, minimum hop signal estimate, maximum hop distance; when none of the
four holds, no state is mutated. -/
theorem C1_trigger_or_of_four (ν : ℕ → ℝ) (s : State) :
    (Trigger ν s ↔
      deployLossRate s > g_lossDeployThresholdPct ∨
        s.avgRttW > g_rttDeployThresholdMs ∨
        minHopRssi ν s < g_rssiDeployThresholdDb ∨
        maxHopDist s > MAX_HOP_DISTANCE) ∧
    (¬ Trigger ν s → deployStep ν s = s) ∧
    (deployStep ν s ≠ s ↔ Trigger ν s ∧ nextStaged s ≠ none) := by
  refine ⟨?_, deployStep_of_notTrigger ν s, ?_, ?_⟩
  · unfold Trigger
    rw [hopTooFar_iff_maxHopDist]
  · intro hne
    by_cases hT : Trigger ν s
    · refine ⟨hT, fun hnone => hne (deployStep_of_noStaged ν s hnone)⟩
    · exact absurd (deployStep_of_notTrigger ν s hT) hne
  · rintro ⟨hT, hsome⟩
    obtain ⟨k, hk⟩ := Option.ne_none_iff_exists'.mp hsome
    rw [deployStep_of_trigger ν s k hT hk]
    exact deployAction_ne s k hk

/-- Witness for C1: in the t = 0 start configuration (user and AP coincident,
no traffic) none of the four comparisons fires, and the deployment decision
leaves the state untouched — `C1_trigger_or_of_four` applied at `sInit`. -/
theorem C1_trigger_or_of_four_witness :
    deployStep noiseZero sInit = sInit := by
  have hchain : activeChain sInit = [⟨0, 0, 0⟩, ⟨0, 0, 0⟩] := rfl
  have hdists : hopDists sInit = [nsDist ⟨0, 0, 0⟩ ⟨0, 0, 0⟩] := rfl
  have hd0 : nsDist (⟨0, 0, 0⟩ : Vec) ⟨0, 0, 0⟩ = 0 := by
    unfold nsDist
    norm_num
  have hrssi : rssiCalcFromDistance (noiseZero 0) 0 = 20 := by
    unfold rssiCalcFromDistance noiseZero
    rw [if_pos (by norm_num : (0:ℝ) < 1)]
    simp [Real.logb_one]
  have hnT : ¬ Trigger noiseZero sInit := by
    unfold Trigger
    push_neg
    refine ⟨by norm_num [deployLossRate, sInit, g_lossDeployThresholdPct], ?_, ?_, ?_⟩
    · norm_num [sInit, g_rttDeployThresholdMs]
    · unfold minHopRssi
      rw [hdists, hd0]
      simp only [List.enum, List.enumFrom, List.map, List.foldl]
      rw [hrssi]
      norm_num [g_rssiDeployThresholdDb]
    · unfold HopTooFar
      rw [hdists]
      rintro ⟨d, hd, hlt⟩
      rcases List.mem_singleton.mp hd with rfl
      rw [hd0] at hlt
      norm_num [MAX_HOP_DISTANCE] at hlt
  exact (C1_trigger_or_of_four noiseZero sInit).2.1 hnT

/-- `getD` with an in-range index is `get`. -/
theorem getD_of_lt {α : Type} (l : List α) (n : ℕ) (d : α) (h : n < l.length) :
    l.getD n d = l.get ⟨n, h⟩ := by
  rw [List.getD_eq_getElem?_getD, List.getElem?_eq_getElem h]
  simp [List.get_eq_getElem]

/-- The largest-gap scan maintains `GoodAcc` (for a list whose adjacent gaps
are non-negative, i.e. a sorted list). -/
theorem bestGapFold_invariant (xs : List ℚ)
    (hmono : ∀ j, j + 1 < xs.length → 0 ≤ gapAt xs j) :
    ∀ k, 1 ≤ k → k ≤ xs.length - 1 →
      GoodAcc xs k ((List.range k).foldl (gapStep xs) (-1, 0)) := by
  intro k
  induction k with
  | zero => omega
  | succ n ih =>
    intro h1 hle
    by_cases hn : n = 0
    · subst hn
      have h01 : 0 + 1 < xs.length := by omega
      have hg0 : 0 ≤ gapAt xs 0 := hmono 0 h01
      simp only [List.range_succ, List.range_zero, List.nil_append, List.foldl_cons,
        List.foldl_nil]
      rw [show gapStep xs (-1, 0) 0 =
        if gapAt xs 0 > (-1 : ℚ) then (gapAt xs 0, (0 : ℕ)) else ((-1 : ℚ), (0 : ℕ)) from rfl]
      rw [if_pos (by linarith : gapAt xs 0 > (-1 : ℚ))]
      exact ⟨Nat.zero_lt_one, rfl, fun j hj => by
        have : j = 0 := by omega
        subst this
        exact le_rfl, fun j hj => by omega⟩
    · have IH := ih (by omega) (by omega)
      rw [List.range_succ, List.foldl_append, List.foldl_cons, List.foldl_nil]
      set acc := (List.range n).foldl (gapStep xs) (-1, 0) with hacc
      obtain ⟨hlt, heq, hmax, hstrict⟩ := IH
      rw [show gapStep xs acc n =
        if gapAt xs n > acc.1 then (gapAt xs n, n) else acc from rfl]
      by_cases hcmp : gapAt xs n > acc.1
      · rw [if_pos hcmp]
        refine ⟨Nat.lt_succ_self n, rfl, ?_, ?_⟩
        · intro j hj
          rcases Nat.lt_succ_iff_lt_or_eq.mp hj with h | h
          · exact le_of_lt (lt_of_le_of_lt (hmax j h) hcmp)
          · subst h
            exact le_rfl
        · intro j hj
          exact lt_of_le_of_lt (hmax j hj) hcmp
      · rw [if_neg hcmp]
        push_neg at hcmp
        refine ⟨Nat.lt_succ_of_lt hlt, heq, ?_, hstrict⟩
        intro j hj
        rcases Nat.lt_succ_iff_lt_or_eq.mp hj with h | h
        · exact hmax j h
        · subst h
          exact hcmp

/-- The index returned by the largest-gap scan of a sorted list with at
least two entries is the FIRST index attaining the maximum adjacent gap. -/
theorem bestGapFold_spec (xs : List ℚ) (h2 : 2 ≤ xs.length)
    (hmono : ∀ j, j + 1 < xs.length → 0 ≤ gapAt xs j) :
    (bestGapFold xs).2 + 1 < xs.length ∧
    (∀ j, j + 1 < xs.length → gapAt xs j ≤ gapAt xs (bestGapFold xs).2) ∧
    (∀ j < (bestGapFold xs).2, gapAt xs j < gapAt xs (bestGapFold xs).2) := by
  have hinv := bestGapFold_invariant xs hmono (xs.length - 1) (by omega) le_rfl
  obtain ⟨hlt, heq, hmax, hstrict⟩ := hinv
  unfold bestGapFold
  refine ⟨by omega, fun j hj => ?_, fun j hj => ?_⟩
  · have h := hmax j (by omega)
    rwa [heq] at h
  · have h := hstrict j hj
    rwa [heq] at h

/-- The sorted pre-activation chain position list is sorted. -/
theorem sortedActiveXs_sorted (s : State) :
    List.Sorted (· ≤ ·) (sortedActiveXs s) :=
  List.sorted_insertionSort _ _

/-- The sorted pre-activation chain position list always holds at least the
user and AP positions. -/
theorem sortedActiveXs_length (s : State) : 2 ≤ (sortedActiveXs s).length := by
  unfold sortedActiveXs
  rw [List.length_insertionSort]
  simp

/-- Adjacent gaps of the sorted chain position list are non-negative. -/
theorem sortedActiveXs_gap_nonneg (s : State) :
    ∀ j, j + 1 < (sortedActiveXs s).length → 0 ≤ gapAt (sortedActiveXs s) j := by
  intro j hj
  unfold gapAt
  have hs := sortedActiveXs_sorted s
  have h1 : j < (sortedActiveXs s).length := by omega
  rw [getD_of_lt _ _ 0 hj, getD_of_lt _ _ 0 h1, sub_nonneg]
  exact hs.rel_get_of_lt (by simp [Fin.mk_lt_mk])

/-- The single hop of `sFar` is the 50 m user-to-AP link. -/
theorem nsDist_sFar_hop : nsDist ⟨50, 0, 0⟩ ⟨0, 0, 0⟩ = 50 := by
  unfold nsDist
  norm_num
  rw [show (2500 : ℝ) = 50 ^ 2 by norm_num, Real.sqrt_sq (by norm_num : (0:ℝ) ≤ 50)]

/-- In `sFar` the deployment trigger fires (through the hop-distance
criterion: 50 m > 40 m). -/
theorem trigger_sFar : Trigger noiseZero sFar := by
  refine Or.inr (Or.inr (Or.inr ⟨nsDist ⟨50, 0, 0⟩ ⟨0, 0, 0⟩, ?_, ?_⟩))
  · show nsDist ⟨50, 0, 0⟩ ⟨0, 0, 0⟩ ∈ hopDists sFar
    rw [show hopDists sFar = [nsDist ⟨50, 0, 0⟩ ⟨0, 0, 0⟩] from rfl]
    exact List.mem_singleton.mpr rfl
  · rw [nsDist_sFar_hop]
    norm_num [MAX_HOP_DISTANCE]

/-- C2: whenever a deployment occurs, the activated relay is placed at the
arithmetic midpoint of the largest adjacent gap of the sorted
pre-activation chain position list (first such gap on ties), and its
velocity is set to zero. -/
theorem C2_midpoint_of_largest_gap (ν : ℕ → ℝ) (s : State) (k : ℕ)
    (hT : Trigger ν s) (hk : nextStaged s = some k) :
    ∃ b, b + 1 < (sortedActiveXs s).length ∧
      (∀ j, j + 1 < (sortedActiveXs s).length →
        gapAt (sortedActiveXs s) j ≤ gapAt (sortedActiveXs s) b) ∧
      (∀ j < b, gapAt (sortedActiveXs s) j < gapAt (sortedActiveXs s) b) ∧
      ((deployStep ν s).drones.get? k).map (fun d => d.pos.x) =
        some (((sortedActiveXs s).getD b 0 + (sortedActiveXs s).getD (b + 1) 0) / 2) ∧
      ((deployStep ν s).drones.get? k).map Drone.vel = some ⟨0, 0, 0⟩ := by
  obtain ⟨hblt, hbmax, hbstrict⟩ :=
    bestGapFold_spec (sortedActiveXs s) (sortedActiveXs_length s) (sortedActiveXs_gap_nonneg s)
  obtain ⟨hlt, -, -⟩ := nextStaged_spec s k hk
  have hget : s.drones.get? k = some (s.drones.get ⟨k, hlt⟩) := List.get?_eq_get hlt
  refine ⟨(bestGapFold (sortedActiveXs s)).2, hblt, hbmax, hbstrict, ?_, ?_⟩ <;>
    rw [deployStep_of_trigger ν s k hT hk] <;>
    simp only [deployAction] <;>
    rw [hget] <;>
    simp only [List.get?_eq_getElem?] <;>
    rw [List.getElem?_set_eq_of_lt _ (by simpa using hlt)] <;>
    rfl

/-- Witness for C2: in `sFar` (user at x = 50, AP at x = 0, both relays
staged) the trigger fires through the hop-distance criterion and
`C2_midpoint_of_largest_gap` applies to slot 0. -/
theorem C2_midpoint_of_largest_gap_witness :
    ∃ b, b + 1 < (sortedActiveXs sFar).length ∧
      (∀ j, j + 1 < (sortedActiveXs sFar).length →
        gapAt (sortedActiveXs sFar) j ≤ gapAt (sortedActiveXs sFar) b) ∧
      (∀ j < b, gapAt (sortedActiveXs sFar) j < gapAt (sortedActiveXs sFar) b) ∧
      ((deployStep noiseZero sFar).drones.get? 0).map (fun d => d.pos.x) =
        some (((sortedActiveXs sFar).getD b 0 + (sortedActiveXs sFar).getD (b + 1) 0) / 2) ∧
      ((deployStep noiseZero sFar).drones.get? 0).map Drone.vel = some ⟨0, 0, 0⟩ :=
  C2_midpoint_of_largest_gap noiseZero sFar 0 trigger_sFar rfl

-- ----- Frame infrastructure: what each handler leaves untouched -----

/-- All metric fields of the state, bundled. -/
def metricsOf (s : State) :
    ℕ × ℕ × ℕ × ℕ × ℚ × ℚ × ℕ × ℕ × ℚ × ℕ × ℚ × ℕ × ℕ × ℕ × ℕ × List (ℕ × ℚ) :=
  (s.txTotal, s.rxTotal, s.txW, s.rxW, s.avgRttTotal, s.avgRttW, s.rttSamplesTotal,
    s.rttSamplesW, s.lastRtt, s.rttSamples, s.avgRtt, s.gTx, s.gRx, s.lTx, s.lRx, s.sentTimes)

/-- The deployment flags of the drone slots, in slot order. -/
def flagsOf (s : State) : List Bool :=
  s.drones.map (fun d => d.deployed)

/-- The number of deployed (active) drones. -/
def activeCount (s : State) : ℕ :=
  (flagsOf s).count true

/-- Setting an index to the value it already holds is the identity. -/
theorem set_same {α : Type} (l : List α) (i : ℕ) (v : α) (h : l.get? i = some v) :
    l.set i v = l := by
  simp only [List.get?_eq_getElem?] at h
  have hlen : i < l.length := by
    by_contra hge
    rw [List.getElem?_eq_none (by omega)] at h
    exact Option.noConfusion h
  apply List.ext_getElem?
  intro n
  by_cases hn : n = i
  · subst hn
    rw [List.getElem?_set_self hlen, h]
  · rw [List.getElem?_set_ne (fun hc => hn hc.symm)]

/-- A movement-loop iteration does not touch the metric fields. -/
theorem metricsOf_moveOne (s : State) (di : ℕ) :
    metricsOf (moveOne s di) = metricsOf s := by
  unfold moveOne
  split
  · rfl
  · split
    · rfl
    · rfl

/-- Folding a metrics-preserving mutator preserves the metric fields. -/
theorem metricsOf_foldl {α : Type} (f : State → α → State)
    (hf : ∀ s x, metricsOf (f s x) = metricsOf s) (l : List α) (s : State) :
    metricsOf (l.foldl f s) = metricsOf s := by
  induction l generalizing s with
  | nil => rfl
  | cons x t ih =>
    rw [List.foldl_cons, ih, hf]

/-- The movement phase does not touch the metric fields. -/
theorem metricsOf_movePhase (s : State) : metricsOf (movePhase s) = metricsOf s :=
  metricsOf_foldl moveOne metricsOf_moveOne _ s

/-- The collision-resolution write-back does not touch the metric fields. -/
theorem metricsOf_resolveApply (s : State) : metricsOf (resolveApply s) = metricsOf s := by
  unfold resolveApply
  apply metricsOf_foldl
  intro t p
  cases t.drones.get? p.1.2 <;> rfl

/-- `AutoBalanceDrones` does not touch the metric fields. -/
theorem metricsOf_balanceStep (s : State) : metricsOf (balanceStep s) = metricsOf s := by
  unfold balanceStep
  by_cases h : s.drones.length = 0
  · rw [if_pos h]
  · rw [if_neg h, metricsOf_resolveApply, metricsOf_movePhase]

/-- Time passage does not touch the metric fields. -/
theorem metricsOf_advanceStep (dt : ℚ) (s : State) :
    metricsOf (advanceStep dt s) = metricsOf s := rfl

/-- A movement-loop iteration does not change any deployment flag. -/
theorem flagsOf_moveOne (s : State) (di : ℕ) :
    flagsOf (moveOne s di) = flagsOf s := by
  unfold moveOne
  split
  · rfl
  next d hget =>
    split
    · rfl
    next hd =>
      unfold flagsOf
      rw [List.map_set]
      apply set_same
      rw [List.get?_eq_getElem?, List.getElem?_map]
      simp only [List.get?_eq_getElem?] at hget
      rw [hget]
      simp only [Option.map_some', Option.some.injEq]
      exact (Bool.not_eq_false d.deployed).mp hd

/-- Folding a flag-preserving mutator preserves the deployment flags. -/
theorem flagsOf_foldl {α : Type} (f : State → α → State)
    (hf : ∀ s x, flagsOf (f s x) = flagsOf s) (l : List α) (s : State) :
    flagsOf (l.foldl f s) = flagsOf s := by
  induction l generalizing s with
  | nil => rfl
  | cons x t ih =>
    rw [List.foldl_cons, ih, hf]

/-- The collision-resolution write-back does not change any deployment flag. -/
theorem flagsOf_resolveApply (s : State) : flagsOf (resolveApply s) = flagsOf s := by
  unfold resolveApply
  apply flagsOf_foldl
  intro t p
  unfold flagsOf
  rw [List.map_set]
  split
  next d hget =>
    apply set_same
    rw [List.get?_eq_getElem?, List.getElem?_map]
    simp only [List.get?_eq_getElem?] at hget
    rw [hget]
    rfl
  next hget =>
    have hlen : t.drones.length ≤ p.1.2 := by
      by_contra hlt
      rw [List.get?_eq_getElem?, List.getElem?_eq_getElem (by omega)] at hget
      exact Option.noConfusion hget
    rw [List.set_eq_of_length_le (by simpa using hlen)]

/-- The movement phase does not change any deployment flag. -/
theorem flagsOf_movePhase (s : State) : flagsOf (movePhase s) = flagsOf s :=
  flagsOf_foldl moveOne flagsOf_moveOne _ s

/-- `AutoBalanceDrones` does not change any deployment flag. -/
theorem flagsOf_balanceStep (s : State) : flagsOf (balanceStep s) = flagsOf s := by
  unfold balanceStep
  by_cases h : s.drones.length = 0
  · rw [if_pos h]
  · rw [if_neg h, flagsOf_resolveApply, flagsOf_movePhase]

/-- Time passage does not change any deployment flag. -/
theorem flagsOf_advanceStep (dt : ℚ) (s : State) :
    flagsOf (advanceStep dt s) = flagsOf s := by
  unfold flagsOf advanceStep
  rw [List.map_map]
  rfl

/-- The traffic callbacks do not change any deployment flag. -/
theorem flagsOf_clientRxTrace (s : State) (uid : ℕ) (now : ℚ) :
    flagsOf (clientRxTrace s uid now) = flagsOf s := by
  unfold clientRxTrace
  cases mapFind s.sentTimes uid <;> rfl

/-- A deployment sets the activated slot's flag (and nothing else). -/
theorem flagsOf_deployAction (s : State) (k : ℕ) :
    flagsOf (deployAction s k) = (flagsOf s).set k true := by
  unfold deployAction flagsOf
  rw [List.map_set]
  split
  · rfl
  next hget =>
    have hlen : s.drones.length ≤ k := by
      by_contra hlt
      rw [List.get?_eq_getElem?, List.getElem?_eq_getElem (by omega)] at hget
      exact Option.noConfusion hget
    rw [List.set_eq_of_length_le (by simpa using hlen),
      List.set_eq_of_length_le (by simpa using hlen)]

/-- Any step either leaves the deployment flags alone or — on a triggered
monitor tick with a staged slot remaining — sets exactly the flag of the
slot `nextStaged` found. -/
theorem flagsOf_step (s s' : State) (h : Step s s') :
    flagsOf s' = flagsOf s ∨
      ∃ k, nextStaged s = some k ∧ flagsOf s' = (flagsOf s).set k true := by
  cases h with
  | tx uid now => exact Or.inl rfl
  | rx => exact Or.inl rfl
  | clientRx uid now => exact Or.inl (flagsOf_clientRxTrace s uid now)
  | balance => exact Or.inl (flagsOf_balanceStep s)
  | advance dt => exact Or.inl (flagsOf_advanceStep dt s)
  | monitor ν =>
    show flagsOf (deployStep ν s) = flagsOf s ∨
      ∃ k, nextStaged s = some k ∧ flagsOf (deployStep ν s) = (flagsOf s).set k true
    unfold deployStep
    by_cases hT : Trigger ν s
    · rw [if_pos hT]
      cases hk : nextStaged s with
      | none => exact Or.inl rfl
      | some k => exact Or.inr ⟨k, rfl, flagsOf_deployAction s k⟩
    · rw [if_neg hT]
      exact Or.inl rfl

/-- The three possible outcomes of a `DeployNextDroneIfNeeded` call. -/
theorem deployStep_cases (ν : ℕ → ℝ) (s : State) :
    deployStep ν s = s ∨
      ∃ k, nextStaged s = some k ∧ Trigger ν s ∧ deployStep ν s = deployAction s k := by
  unfold deployStep
  by_cases hT : Trigger ν s
  · rw [if_pos hT]
    cases hk : nextStaged s with
    | none => exact Or.inl rfl
    | some k => exact Or.inr ⟨k, rfl, hT, rfl⟩
  · rw [if_neg hT]
    exact Or.inl rfl

/-- Field-by-field effect of the deployment action on the metrics: the four
windowed fields and the two legacy window mirrors are zeroed; everything
else (cumulative series, legacy `l_*`, last RTT, timestamp map) is kept. -/
theorem deployAction_metrics (s : State) (k : ℕ) :
    (deployAction s k).txW = 0 ∧ (deployAction s k).rxW = 0 ∧
    (deployAction s k).avgRttW = 0 ∧ (deployAction s k).rttSamplesW = 0 ∧
    (deployAction s k).gTx = 0 ∧ (deployAction s k).gRx = 0 ∧
    (deployAction s k).txTotal = s.txTotal ∧ (deployAction s k).rxTotal = s.rxTotal ∧
    (deployAction s k).avgRttTotal = s.avgRttTotal ∧
    (deployAction s k).rttSamplesTotal = s.rttSamplesTotal ∧
    (deployAction s k).sentTimes = s.sentTimes ∧ (deployAction s k).lastRtt = s.lastRtt ∧
    (deployAction s k).lTx = s.lTx ∧ (deployAction s k).lRx = s.lRx ∧
    (deployAction s k).avgRtt = s.avgRtt ∧ (deployAction s k).rttSamples = s.rttSamples :=
  ⟨rfl, rfl, rfl, rfl, rfl, rfl, rfl, rfl, rfl, rfl, rfl, rfl, rfl, rfl, rfl, rfl⟩

/-- Counter effect of a round-trip completion: send/receive counters are
untouched; the RTT sample counts of both series go up together exactly when
the uid was found. -/
theorem clientRxTrace_counters (s : State) (uid : ℕ) (now : ℚ) :
    ((clientRxTrace s uid now).txW = s.txW ∧ (clientRxTrace s uid now).rxW = s.rxW ∧
      (clientRxTrace s uid now).txTotal = s.txTotal ∧
      (clientRxTrace s uid now).rxTotal = s.rxTotal) ∧
    (mapFind s.sentTimes uid = none → clientRxTrace s uid now = s) ∧
    (mapFind s.sentTimes uid ≠ none →
      (clientRxTrace s uid now).rttSamplesW = s.rttSamplesW + 1 ∧
      (clientRxTrace s uid now).rttSamplesTotal = s.rttSamplesTotal + 1) := by
  unfold clientRxTrace
  cases h : mapFind s.sentTimes uid with
  | none => exact ⟨⟨rfl, rfl, rfl, rfl⟩, fun _ => rfl, fun hne => absurd rfl hne⟩
  | some t0 => exact ⟨⟨rfl, rfl, rfl, rfl⟩, fun hc => Option.noConfusion hc,
      fun _ => ⟨rfl, rfl⟩⟩

/-- Extract the counter equalities from a bundled metrics equality. -/
theorem counters_eq_of_metricsOf_eq {s t : State} (h : metricsOf s = metricsOf t) :
    s.txW = t.txW ∧ s.rxW = t.rxW ∧ s.txTotal = t.txTotal ∧ s.rxTotal = t.rxTotal ∧
    s.rttSamplesW = t.rttSamplesW ∧ s.rttSamplesTotal = t.rttSamplesTotal ∧
    s.avgRttW = t.avgRttW ∧ s.avgRttTotal = t.avgRttTotal := by
  unfold metricsOf at h
  simp only [Prod.mk.injEq] at h
  exact ⟨h.2.2.1, h.2.2.2.1, h.1, h.2.1, h.2.2.2.2.2.2.2.1, h.2.2.2.2.2.2.1,
    h.2.2.2.2.2.1, h.2.2.2.2.1⟩

/-- C10: at every reachable state each windowed counter is bounded by its
cumulative counterpart, because every recording operation increments both
series together and the only reset (deployment) zeroes only the windowed
side. -/
theorem C10_window_bounded_by_total (s : State) (hR : Reach s) :
    s.txW ≤ s.txTotal ∧ s.rxW ≤ s.rxTotal ∧ s.rttSamplesW ≤ s.rttSamplesTotal := by
  induction hR with
  | init s h =>
    obtain ⟨h1, h2, h3, h4, -, -, h7, h8, -⟩ := h
    rw [h1, h2, h3, h4, h7, h8]
    exact ⟨le_rfl, le_rfl, le_rfl⟩
  | step s s' hR hs ih =>
    obtain ⟨i1, i2, i3⟩ := ih
    cases hs with
    | tx uid now =>
      show s.txW + 1 ≤ s.txTotal + 1 ∧ s.rxW ≤ s.rxTotal ∧ s.rttSamplesW ≤ s.rttSamplesTotal
      exact ⟨by omega, i2, i3⟩
    | rx =>
      show s.txW ≤ s.txTotal ∧ s.rxW + 1 ≤ s.rxTotal + 1 ∧ s.rttSamplesW ≤ s.rttSamplesTotal
      exact ⟨i1, by omega, i3⟩
    | clientRx uid now =>
      obtain ⟨⟨e1, e2, e3, e4⟩, hn, hf⟩ := clientRxTrace_counters s uid now
      by_cases h : mapFind s.sentTimes uid = none
      · rw [hn h]
        exact ⟨i1, i2, i3⟩
      · obtain ⟨f1, f2⟩ := hf h
        rw [e1, e2, e3, e4, f1, f2]
        exact ⟨i1, i2, by omega⟩
    | monitor ν =>
      show (deployStep ν s).txW ≤ (deployStep ν s).txTotal ∧
        (deployStep ν s).rxW ≤ (deployStep ν s).rxTotal ∧
        (deployStep ν s).rttSamplesW ≤ (deployStep ν s).rttSamplesTotal
      rcases deployStep_cases ν s with h | ⟨k, -, -, h⟩
      · rw [h]
        exact ⟨i1, i2, i3⟩
      · rw [h]
        obtain ⟨a1, a2, -, a4, -, -, -, -, -, -, -⟩ := deployAction_metrics s k
        rw [a1, a2, a4]
        exact ⟨Nat.zero_le _, Nat.zero_le _, Nat.zero_le _⟩
    | balance =>
      obtain ⟨e1, e2, e3, e4, e5, e6, -, -⟩ :=
        counters_eq_of_metricsOf_eq (metricsOf_balanceStep s)
      rw [e1, e2, e3, e4, e5, e6]
      exact ⟨i1, i2, i3⟩
    | advance dt =>
      exact ⟨i1, i2, i3⟩

/-- Witness for C10: the program's start state is reachable, so the bound
holds there — `C10_window_bounded_by_total` at `sInit`. -/
theorem C10_window_bounded_by_total_witness :
    sInit.txW ≤ sInit.txTotal ∧ sInit.rxW ≤ sInit.rxTotal ∧
      sInit.rttSamplesW ≤ sInit.rttSamplesTotal :=
  C10_window_bounded_by_total sInit
    (Reach.init sInit
      ⟨rfl, rfl, rfl, rfl, rfl, rfl, rfl, rfl, rfl, rfl, rfl, rfl, rfl, rfl, rfl, rfl,
        Or.inl (by decide)⟩)

/-- C4: a deployment resets exactly the windowed metrics (windowed tx/rx
counts, windowed RTT average and sample count, together with the legacy
`g_txPackets`/`g_rxPackets` window mirrors) to zero and leaves every
cumulative counter unchanged; no operation other than deployment resets the
windowed series — every other handler leaves the windowed counters equal or
larger. -/
theorem C4_deploy_resets_only_window (ν : ℕ → ℝ) (s : State) :
    (∀ k, nextStaged s = some k → Trigger ν s →
      (deployStep ν s).txW = 0 ∧ (deployStep ν s).rxW = 0 ∧
      (deployStep ν s).avgRttW = 0 ∧ (deployStep ν s).rttSamplesW = 0 ∧
      (deployStep ν s).gTx = 0 ∧ (deployStep ν s).gRx = 0 ∧
      (deployStep ν s).txTotal = s.txTotal ∧ (deployStep ν s).rxTotal = s.rxTotal ∧
      (deployStep ν s).avgRttTotal = s.avgRttTotal ∧
      (deployStep ν s).rttSamplesTotal = s.rttSamplesTotal ∧
      (deployStep ν s).sentTimes = s.sentTimes ∧ (deployStep ν s).lastRtt = s.lastRtt) ∧
    ((¬ Trigger ν s ∨ nextStaged s = none) → deployStep ν s = s) ∧
    (∀ uid now, s.txW ≤ (txTrace s uid now).txW ∧ s.rxW ≤ (txTrace s uid now).rxW ∧
      s.rttSamplesW ≤ (txTrace s uid now).rttSamplesW) ∧
    (s.txW ≤ (rxTrace s).txW ∧ s.rxW ≤ (rxTrace s).rxW ∧
      s.rttSamplesW ≤ (rxTrace s).rttSamplesW) ∧
    (∀ uid now, s.txW ≤ (clientRxTrace s uid now).txW ∧
      s.rxW ≤ (clientRxTrace s uid now).rxW ∧
      s.rttSamplesW ≤ (clientRxTrace s uid now).rttSamplesW) ∧
    (s.txW ≤ (balanceStep s).txW ∧ s.rxW ≤ (balanceStep s).rxW ∧
      s.rttSamplesW ≤ (balanceStep s).rttSamplesW) ∧
    (∀ dt, s.txW ≤ (advanceStep dt s).txW ∧ s.rxW ≤ (advanceStep dt s).rxW ∧
      s.rttSamplesW ≤ (advanceStep dt s).rttSamplesW) := by
  refine ⟨?_, ?_, ?_, ?_, ?_, ?_, ?_⟩
  · intro k hk hT
    rw [deployStep_of_trigger ν s k hT hk]
    obtain ⟨a1, a2, a3, a4, a5, a6, a7, a8, a9, a10, a11, a12, -⟩ := deployAction_metrics s k
    exact ⟨a1, a2, a3, a4, a5, a6, a7, a8, a9, a10, a11, a12⟩
  · rintro (h | h)
    · exact deployStep_of_notTrigger ν s h
    · exact deployStep_of_noStaged ν s h
  · intro uid now
    show s.txW ≤ s.txW + 1 ∧ s.rxW ≤ s.rxW ∧ s.rttSamplesW ≤ s.rttSamplesW
    exact ⟨Nat.le_succ _, le_rfl, le_rfl⟩
  · exact ⟨le_rfl, Nat.le_succ _, le_rfl⟩
  · intro uid now
    obtain ⟨⟨e1, e2, -, -⟩, hn, hf⟩ := clientRxTrace_counters s uid now
    by_cases h : mapFind s.sentTimes uid = none
    · rw [hn h]
      exact ⟨le_rfl, le_rfl, le_rfl⟩
    · obtain ⟨f1, -⟩ := hf h
      rw [e1, e2, f1]
      exact ⟨le_rfl, le_rfl, Nat.le_succ _⟩
  · obtain ⟨e1, e2, -, -, e5, -, -, -⟩ :=
      counters_eq_of_metricsOf_eq (metricsOf_balanceStep s)
    rw [e1, e2, e5]
    exact ⟨le_rfl, le_rfl, le_rfl⟩
  · intro dt
    exact ⟨le_rfl, le_rfl, le_rfl⟩

/-- Witness for C4: the deployment triggered at `sFar` zeroes the windowed
send counter and keeps the cumulative one — `C4_deploy_resets_only_window`
applied at `sFar`, slot 0. -/
theorem C4_deploy_resets_only_window_witness :
    (deployStep noiseZero sFar).txW = 0 ∧
      (deployStep noiseZero sFar).txTotal = sFar.txTotal := by
  obtain ⟨h1, -, -, -, -, -, h7, -⟩ :=
    (C4_deploy_resets_only_window noiseZero sFar).1 0 rfl trigger_sFar
  exact ⟨h1, h7⟩

/-- The flags list is a block of `true` (deployed slots) followed by a block
of `false` (staged slots): the active set is a prefix of the slot sequence. -/
def FlagsShape (l : List Bool) : Prop :=
  ∃ m, m ≤ l.length ∧ l = List.replicate m true ++ List.replicate (l.length - m) false

/-- Indexing a prefix-of-true flags list. -/
theorem shape_getD (n m i : ℕ) (hm : m ≤ n) :
    (List.replicate m true ++ List.replicate (n - m) false).getD i false =
      decide (i < m) := by
  rw [List.getD_eq_getElem?_getD]
  by_cases h1 : i < m
  · rw [List.getElem?_append_left (by simpa using h1), List.getElem?_replicate_of_lt h1]
    simp [h1]
  · rw [List.getElem?_append_right (by simpa using Nat.le_of_not_lt h1),
      List.getElem?_replicate]
    split <;> simp [h1]

/-- Counting the deployed slots of a prefix-of-true flags list. -/
theorem shape_count (n m : ℕ) :
    (List.replicate m true ++ List.replicate (n - m) false).count true = m := by
  rw [List.count_append, List.count_replicate_self, List.count_replicate]
  simp

/-- Activating the first staged slot of a prefix-of-true flags list extends
the prefix by one. -/
theorem shape_set (n m : ℕ) (hmn : m < n) :
    (List.replicate m true ++ List.replicate (n - m) false).set m true =
      List.replicate (m + 1) true ++ List.replicate (n - (m + 1)) false := by
  rw [show n - m = (n - (m + 1)) + 1 by omega, List.replicate_succ,
    List.set_append_right _ _ (by simp), List.replicate_succ' m]
  simp

/-- In a prefix-of-true flags list, the first staged index (staged, all
earlier deployed) is exactly the prefix length. -/
theorem shape_staged_index (n m k : ℕ) (hm : m ≤ n) (hk : k < n)
    (hkf : (List.replicate m true ++ List.replicate (n - m) false).getD k false = false)
    (hprev : ∀ j < k,
      (List.replicate m true ++ List.replicate (n - m) false).getD j false = true) :
    k = m := by
  rw [shape_getD n m k hm] at hkf
  have hkm : ¬ k < m := by simpa using hkf
  by_contra hne
  have hmk : m < k := by omega
  have := hprev m hmk
  rw [shape_getD n m m hm] at this
  simp at this

/-- The flags of a valid start state have the prefix shape. -/
theorem initial_shape (s : State) (h : InitialState s) : FlagsShape (flagsOf s) := by
  obtain ⟨-, -, -, -, -, -, -, -, -, -, -, -, -, -, -, -, hf | hf⟩ := h
  · refine ⟨0, Nat.zero_le _, ?_⟩
    rw [List.replicate_zero, List.nil_append]
    apply List.eq_replicate_of_mem
    intro b hb
    obtain ⟨d, hd, rfl⟩ := List.mem_map.mp hb
    exact hf d hd
  · refine ⟨(flagsOf s).length, le_rfl, ?_⟩
    rw [Nat.sub_self, List.replicate_zero, List.append_nil]
    apply List.eq_replicate_of_mem
    intro b hb
    obtain ⟨d, hd, rfl⟩ := List.mem_map.mp hb
    exact hf d hd

/-- A staged slot found by `nextStaged` is in range. -/
theorem nextStaged_lt (s : State) (k : ℕ) (hk : nextStaged s = some k) :
    k < (flagsOf s).length := by
  obtain ⟨hklt, -, -⟩ := nextStaged_spec s k hk
  have : (flagsOf s).length = s.drones.length := List.length_map _ _
  omega

/-- With prefix-shaped flags, the slot `nextStaged` finds is exactly the
current prefix length. -/
theorem staged_index_eq (s : State) (m k : ℕ)
    (hm : m ≤ (flagsOf s).length)
    (hsh : flagsOf s =
      List.replicate m true ++ List.replicate ((flagsOf s).length - m) false)
    (hk : nextStaged s = some k) : k = m := by
  obtain ⟨hklt, hkf, hprev⟩ := nextStaged_spec s k hk
  have hkltf : k < (flagsOf s).length := nextStaged_lt s k hk
  have hgetk : (flagsOf s).getD k false = false := by
    rw [getD_of_lt (flagsOf s) k false hkltf]
    unfold flagsOf
    rw [List.get_eq_getElem, List.getElem_map]
    rw [List.get_eq_getElem] at hkf
    exact hkf
  have hgetprev : ∀ j < k, (flagsOf s).getD j false = true := by
    intro j hj
    rw [getD_of_lt (flagsOf s) j false (by omega)]
    unfold flagsOf
    rw [List.get_eq_getElem, List.getElem_map]
    have := hprev j hj
    rw [List.get_eq_getElem] at this
    exact this
  apply shape_staged_index (flagsOf s).length m k hm hkltf
  · rw [← hsh]
    exact hgetk
  · intro j hj
    rw [← hsh]
    exact hgetprev j hj

/-- Activating the slot `nextStaged` finds extends the flags prefix by one. -/
theorem shape_set_next (s : State) (m k : ℕ)
    (hm : m ≤ (flagsOf s).length)
    (hsh : flagsOf s =
      List.replicate m true ++ List.replicate ((flagsOf s).length - m) false)
    (hk : nextStaged s = some k) :
    (flagsOf s).set k true =
      List.replicate (k + 1) true ++
        List.replicate ((flagsOf s).length - (k + 1)) false := by
  have hkm : k = m := staged_index_eq s m k hm hsh hk
  subst hkm
  have hkltf : k < (flagsOf s).length := nextStaged_lt s k hk
  conv_lhs => rw [hsh]
  rw [shape_set (flagsOf s).length k hkltf]

/-- The prefix shape is preserved by every step. -/
theorem shape_step (s s' : State) (hS : FlagsShape (flagsOf s)) (h : Step s s') :
    FlagsShape (flagsOf s') := by
  rcases flagsOf_step s s' h with heq | ⟨k, hk, heq⟩
  · rwa [heq]
  · obtain ⟨m, hm, hshape⟩ := hS
    refine ⟨k + 1, ?_, ?_⟩
    · rw [heq, List.length_set]
      have := nextStaged_lt s k hk
      omega
    · rw [heq, List.length_set, shape_set_next s m k hm hshape hk]

/-- Every reachable state has prefix-shaped flags. -/
theorem reach_shape (s : State) (hR : Reach s) : FlagsShape (flagsOf s) := by
  induction hR with
  | init s h => exact initial_shape s h
  | step s s' hR hs ih => exact shape_step s s' ih hs

/-- Setting a flag to `true` never un-sets another flag. -/
theorem getD_set_true (l : List Bool) (k i : ℕ) (h : l.getD i false = true) :
    (l.set k true).getD i false = true := by
  rw [List.getD_eq_getElem?_getD] at h ⊢
  by_cases hik : i = k
  · subst hik
    by_cases hlen : i < l.length
    · rw [List.getElem?_set_self hlen]
      rfl
    · rw [List.set_eq_of_length_le (by omega)]
      exact h
  · rw [List.getElem?_set_ne (fun hc => hik hc.symm)]
    exact h

/-- C3: over any run, the active-relay count is non-decreasing and never
exceeds the slot count, each deployment-decision call activates at most one
relay — always the lowest-index staged one — no operation re-stages an
active relay, and the set of active relays is always a prefix of the slot
sequence. -/
theorem C3_prefix_monotone_deployment (s : State) (hR : Reach s) :
    FlagsShape (flagsOf s) ∧
    activeCount s ≤ s.drones.length ∧
    ∀ s', Step s s' →
      s'.drones.length = s.drones.length ∧
      activeCount s ≤ activeCount s' ∧
      activeCount s' ≤ activeCount s + 1 ∧
      (∀ i, (flagsOf s).getD i false = true → (flagsOf s').getD i false = true) ∧
      (activeCount s' ≠ activeCount s →
        nextStaged s = some (activeCount s) ∧
        flagsOf s' = (flagsOf s).set (activeCount s) true) := by
  obtain ⟨m, hm, hsh⟩ := reach_shape s hR
  have hcount : activeCount s = m := by
    unfold activeCount
    rw [hsh, shape_count]
  have hflen : (flagsOf s).length = s.drones.length := List.length_map _ _
  refine ⟨⟨m, hm, hsh⟩, by omega, ?_⟩
  intro s' hstep
  have hflen' : (flagsOf s').length = s'.drones.length := List.length_map _ _
  rcases flagsOf_step s s' hstep with heq | ⟨k, hk, heq⟩
  · have hc : activeCount s' = activeCount s := by
      unfold activeCount
      rw [heq]
    have hl : (flagsOf s').length = (flagsOf s).length := by rw [heq]
    refine ⟨by omega, by omega, by omega, ?_, fun hne => absurd hc hne⟩
    intro i hi
    rw [heq]
    exact hi
  · have hkm : k = m := staged_index_eq s m k hm hsh hk
    have hklt : k < (flagsOf s).length := nextStaged_lt s k hk
    have hc' : activeCount s' = m + 1 := by
      unfold activeCount
      rw [heq, shape_set_next s m k hm hsh hk, hkm, shape_count]
    have hl : (flagsOf s').length = (flagsOf s).length := by
      rw [heq, List.length_set]
    refine ⟨by omega, by omega, by omega, ?_, fun hne => ?_⟩
    · intro i hi
      rw [heq]
      exact getD_set_true _ k i hi
    · subst hkm
      rw [hcount]
      exact ⟨hk, heq⟩

/-- Witness for C3: the start state is reachable, so its flags are a prefix
block and the active count is within the slot count —
`C3_prefix_monotone_deployment` at `sInit`. -/
theorem C3_prefix_monotone_deployment_witness :
    FlagsShape (flagsOf sInit) ∧ activeCount sInit ≤ sInit.drones.length := by
  have h := C3_prefix_monotone_deployment sInit
    (Reach.init sInit
      ⟨rfl, rfl, rfl, rfl, rfl, rfl, rfl, rfl, rfl, rfl, rfl, rfl, rfl, rfl, rfl, rfl,
        Or.inl (by decide)⟩)
  exact ⟨h.1, h.2.1⟩

/-- `getD` after `set` at the same (in-range) index. -/
theorem getD_set_self (l : List ℚ) (i : ℕ) (v : ℚ) (h : i < l.length) :
    (l.set i v).getD i 0 = v := by
  rw [List.getD_eq_getElem?_getD, List.getElem?_set_self h]
  rfl

/-- `getD` after `set` at a different index. -/
theorem getD_set_ne (l : List ℚ) (i j : ℕ) (v : ℚ) (h : i ≠ j) :
    (l.set i v).getD j 0 = l.getD j 0 := by
  rw [List.getD_eq_getElem?_getD, List.getElem?_set_ne h, ← List.getD_eq_getElem?_getD]

/-- `get?` of an in-range index, phrased through `getD`. -/
theorem get?_eq_some_getD (l : List ℚ) (n : ℕ) (h : n < l.length) :
    l.get? n = some (l.getD n 0) := by
  rw [List.get?_eq_getElem?, List.getElem?_eq_getElem h, getD_of_lt l n 0 h,
    List.get_eq_getElem]

/-- Unfolding one iteration of the sweep prefix. -/
theorem sweepPartial_succ (xs : List ℚ) (k : ℕ) :
    sweepPartial xs (k + 1) = sweepStep xs (sweepPartial xs k) k := by
  unfold sweepPartial
  rw [List.range_succ, List.foldl_append, List.foldl_cons, List.foldl_nil]

/-- Invariant of the separation sweep after `k` iterations: indices below
`k` hold their final (last-write-wins) value, index `k` holds its pending
value (the push-right of a violated pair `(k-1, k)`, if any), and later
indices are untouched. -/
theorem sweepPartial_spec (xs : List ℚ) (k : ℕ) :
    (sweepPartial xs k).length = xs.length ∧
    ∀ j, (sweepPartial xs k).getD j 0 =
      if j < k then resolvedVal xs j
      else if j = k ∧ k ≠ 0 ∧ pairClose xs (k - 1) then
        gapMid xs (k - 1) + MIN_SEPARATION / 2
      else xs.getD j 0 := by
  induction k with
  | zero =>
    refine ⟨rfl, fun j => ?_⟩
    rw [if_neg (by omega), if_neg (fun h => h.2.1 rfl)]
    rfl
  | succ k ih =>
    obtain ⟨ihl, ihv⟩ := ih
    rw [sweepPartial_succ]
    rcases em (pairClose xs k) with hpc | hnpc
    · have hk1 : k + 1 < xs.length := hpc.1
      have hk0 : k < xs.length := by omega
      have hcl := hpc.2
      have e1 : xs.get? k = some (xs.getD k 0) := get?_eq_some_getD xs k hk0
      have e2 : xs.get? (k + 1) = some (xs.getD (k + 1) 0) := get?_eq_some_getD xs (k + 1) hk1
      have hstep : sweepStep xs (sweepPartial xs k) k =
          ((sweepPartial xs k).set k (gapMid xs k - MIN_SEPARATION / 2)).set (k + 1)
            (gapMid xs k + MIN_SEPARATION / 2) := by
        simp only [sweepStep, e1, e2]
        rw [if_pos hcl]
        rfl
      rw [hstep]
      refine ⟨by rw [List.length_set, List.length_set, ihl], fun j => ?_⟩
      by_cases hj1 : j = k + 1
      · subst hj1
        rw [getD_set_self _ _ _ (by rw [List.length_set, ihl]; exact hk1)]
        rw [if_neg (by omega), if_pos ⟨rfl, by omega, by simpa using hpc⟩]
        simp
      · by_cases hjk : j = k
        · subst hjk
          rw [getD_set_ne _ _ _ _ (by omega), getD_set_self _ _ _ (by rw [ihl]; exact hk0)]
          rw [if_pos (by omega), resolvedVal, if_pos hpc]
        · rw [getD_set_ne _ _ _ _ (by omega), getD_set_ne _ _ _ _ (by omega), ihv j]
          by_cases hjlt : j < k
          · rw [if_pos hjlt, if_pos (by omega)]
          · have l2 : ¬ (j = k ∧ k ≠ 0 ∧ pairClose xs (k - 1)) :=
              fun h => absurd h.1 hjk
            have r1 : ¬ j < k + 1 := by omega
            have r2 : ¬ (j = k + 1 ∧ k + 1 ≠ 0 ∧ pairClose xs (k + 1 - 1)) :=
              fun h => absurd h.1 hj1
            rw [if_neg hjlt, if_neg l2, if_neg r1, if_neg r2]
    · have hstep : sweepStep xs (sweepPartial xs k) k = sweepPartial xs k := by
        by_cases hk1 : k + 1 < xs.length
        · have e1 : xs.get? k = some (xs.getD k 0) := get?_eq_some_getD xs k (by omega)
          have e2 : xs.get? (k + 1) = some (xs.getD (k + 1) 0) :=
            get?_eq_some_getD xs (k + 1) hk1
          simp only [sweepStep, e1, e2]
          rw [if_neg (fun hc => hnpc ⟨hk1, hc⟩)]
        · have e2 : xs[k + 1]? = none := List.getElem?_eq_none (by omega)
          cases hgk : xs[k]? <;>
            simp only [sweepStep, List.get?_eq_getElem?, hgk, e2]
      rw [hstep]
      refine ⟨ihl, fun j => ?_⟩
      rw [ihv j]
      by_cases hjlt : j < k
      · rw [if_pos hjlt, if_pos (by omega)]
      · by_cases hjk : j = k
        · rw [if_neg hjlt]
          by_cases hE : k ≠ 0 ∧ pairClose xs (k - 1)
          · rw [if_pos ⟨hjk, hE.1, hE.2⟩, if_pos (show j < k + 1 by omega), resolvedVal,
              if_neg (show ¬ pairClose xs j by rw [hjk]; exact hnpc),
              if_pos (show j ≠ 0 ∧ pairClose xs (j - 1) by rw [hjk]; exact hE), hjk]
          · rw [if_neg (show ¬ (j = k ∧ k ≠ 0 ∧ pairClose xs (k - 1)) from
                fun h => hE ⟨h.2.1, h.2.2⟩),
              if_pos (show j < k + 1 by omega), resolvedVal,
              if_neg (show ¬ pairClose xs j by rw [hjk]; exact hnpc),
              if_neg (show ¬ (j ≠ 0 ∧ pairClose xs (j - 1)) by rw [hjk]; exact hE)]
        · have l2 : ¬ (j = k ∧ k ≠ 0 ∧ pairClose xs (k - 1)) :=
            fun h => absurd h.1 hjk
          have r1 : ¬ j < k + 1 := by omega
          have r2 : ¬ (j = k + 1 ∧ k + 1 ≠ 0 ∧ pairClose xs (k + 1 - 1)) :=
            fun h => hnpc (by simpa using h.2.2)
          rw [if_neg hjlt, if_neg l2, if_neg r1, if_neg r2]

/-- The separation sweep preserves the number of entries. -/
theorem resolveSweep_length (xs : List ℚ) : (resolveSweep xs).length = xs.length :=
  (sweepPartial_spec xs (xs.length - 1)).1

/-- Closed form of the whole separation sweep. -/
theorem resolveSweep_getD (xs : List ℚ) (j : ℕ) (hj : j < xs.length) :
    (resolveSweep xs).getD j 0 = resolvedVal xs j := by
  have h := (sweepPartial_spec xs (xs.length - 1)).2 j
  rw [show resolveSweep xs = sweepPartial xs (xs.length - 1) from rfl, h]
  by_cases hjlt : j < xs.length - 1
  · rw [if_pos hjlt]
  · have hj1 : j = xs.length - 1 := by omega
    subst hj1
    have hnV : ¬ pairClose xs (xs.length - 1) := fun hc => by
      have := hc.1
      omega
    rw [if_neg (by omega)]
    by_cases hP : xs.length - 1 = xs.length - 1 ∧ xs.length - 1 ≠ 0 ∧
        pairClose xs (xs.length - 1 - 1)
    · rw [if_pos hP, resolvedVal, if_neg hnV, if_pos ⟨hP.2.1, hP.2.2⟩]
    · rw [if_neg hP, resolvedVal, if_neg hnV,
        if_neg (fun h => hP ⟨rfl, h.1, h.2⟩)]

/-- After the sweep, the relative order by position is preserved: the output
list of a sorted input is still sorted pairwise. -/
theorem resolveSweep_pairwise_le (xs : List ℚ)
    (hs : ∀ j, j + 1 < xs.length → xs.getD j 0 ≤ xs.getD (j + 1) 0) (j : ℕ)
    (hj : j + 1 < xs.length) :
    (resolveSweep xs).getD j 0 ≤ (resolveSweep xs).getD (j + 1) 0 := by
  rw [resolveSweep_getD xs j (by omega), resolveSweep_getD xs (j + 1) hj]
  have hc : (0 : ℚ) < MIN_SEPARATION := by norm_num [MIN_SEPARATION]
  have hgj : xs.getD j 0 ≤ xs.getD (j + 1) 0 := hs j hj
  unfold resolvedVal gapMid
  simp only [Nat.add_sub_cancel]
  by_cases hVj : pairClose xs j
  · rw [if_pos hVj]
    by_cases hVj1 : pairClose xs (j + 1)
    · rw [if_pos hVj1]
      have h2 : xs.getD (j + 1) 0 ≤ xs.getD (j + 1 + 1) 0 := hs (j + 1) hVj1.1
      linarith
    · rw [if_neg hVj1, if_pos ⟨Nat.succ_ne_zero j, hVj⟩]
      linarith
  · rw [if_neg hVj]
    have hgapc : MIN_SEPARATION ≤ xs.getD (j + 1) 0 - xs.getD j 0 := by
      by_contra hlt
      exact hVj ⟨hj, by linarith⟩
    by_cases hVj1 : pairClose xs (j + 1)
    · rw [if_pos hVj1]
      have h2 : xs.getD (j + 1) 0 ≤ xs.getD (j + 1 + 1) 0 := hs (j + 1) hVj1.1
      by_cases hE : j ≠ 0 ∧ pairClose xs (j - 1)
      · rw [if_pos hE, show j - 1 + 1 = j by omega]
        have h0 : xs.getD (j - 1) 0 ≤ xs.getD j 0 := by
          have h := hs (j - 1) (by omega)
          rwa [show j - 1 + 1 = j by omega] at h
        linarith
      · rw [if_neg hE]
        linarith
    · rw [if_neg hVj1,
        if_neg (show ¬ (j + 1 ≠ 0 ∧ pairClose xs j) from fun h => hVj h.2)]
      by_cases hE : j ≠ 0 ∧ pairClose xs (j - 1)
      · rw [if_pos hE, show j - 1 + 1 = j by omega]
        have h0 : xs.getD (j - 1) 0 ≤ xs.getD j 0 := by
          have h := hs (j - 1) (by omega)
          rwa [show j - 1 + 1 = j by omega] at h
        linarith
      · rw [if_neg hE]
        exact hgj

/-- Counterexample to C5 as stated: three tightly packed relays at
x = 0, 1/4, 1/2 (sorted, all adjacent gaps below the 1/2 m minimum). The
sweep reads only the frozen pre-sweep positions, so the correction of the
second pair overwrites the push-right of the first pair: the output is
[-1/8, 1/8, 5/8] and the first adjacent gap is 1/4 — below
`MIN_SEPARATION - 1/8`, i.e. the claimed bound fails even with a generous
tolerance of 1/8. -/
theorem C5_counterexample_three_packed :
    resolveSweep [0, 1/4, 1/2] = [-(1:ℚ)/8, 1/8, 5/8] ∧
    (resolveSweep [0, 1/4, 1/2]).getD 1 0 - (resolveSweep [0, 1/4, 1/2]).getD 0 0 <
      MIN_SEPARATION - 1/8 := by
  norm_num [resolveSweep, sweepStep, MIN_SEPARATION, List.range_succ]

/-- C5 (amended): after the collision-resolution sweep the relative order of
the active relays is preserved (a sorted position list stays sorted, entry
for entry), and the minimum-separation bound is guaranteed when at most two
relays are active; with three or more tightly packed relays the single
frozen-input sweep can leave an earlier adjacent pair below the minimum
separation (see the counterexample). -/
theorem C5_order_preserved_separation_two (xs : List ℚ)
    (hs : ∀ j, j + 1 < xs.length → xs.getD j 0 ≤ xs.getD (j + 1) 0) :
    (resolveSweep xs).length = xs.length ∧
    (∀ j, j + 1 < xs.length →
      (resolveSweep xs).getD j 0 ≤ (resolveSweep xs).getD (j + 1) 0) ∧
    (xs.length ≤ 2 → ∀ j, j + 1 < xs.length →
      MIN_SEPARATION ≤ (resolveSweep xs).getD (j + 1) 0 - (resolveSweep xs).getD j 0) := by
  refine ⟨resolveSweep_length xs, resolveSweep_pairwise_le xs hs, ?_⟩
  intro h2 j hj
  have hj0 : j = 0 := by omega
  subst hj0
  rw [resolveSweep_getD xs 0 (by omega), resolveSweep_getD xs 1 (by omega)]
  have hnV1 : ¬ pairClose xs 1 := fun h => by
    have := h.1
    omega
  unfold resolvedVal gapMid
  simp only [Nat.sub_self]
  by_cases hV0 : pairClose xs 0
  · rw [if_pos hV0, if_neg hnV1,
      if_pos (show 1 ≠ 0 ∧ pairClose xs 0 from ⟨one_ne_zero, hV0⟩)]
    linarith
  · have hgap : MIN_SEPARATION ≤ xs.getD 1 0 - xs.getD 0 0 := by
      by_contra hlt
      exact hV0 ⟨hj, by linarith⟩
    rw [if_neg hnV1,
      if_neg (show ¬ (1 ≠ 0 ∧ pairClose xs 0) from fun h => hV0 h.2),
      if_neg hV0,
      if_neg (show ¬ (0 ≠ 0 ∧ pairClose xs (0 - 1)) from fun h => h.1 rfl)]
    exact hgap

/-- Witness for the amended C5: two active relays at x = 0 and x = 10 —
`C5_order_preserved_separation_two` applied to the concrete sorted list. -/
theorem C5_order_preserved_separation_two_witness :
    (resolveSweep [0, 10]).length = ([0, 10] : List ℚ).length ∧
    (∀ j, j + 1 < ([0, 10] : List ℚ).length →
      (resolveSweep [0, 10]).getD j 0 ≤ (resolveSweep [0, 10]).getD (j + 1) 0) ∧
    (([0, 10] : List ℚ).length ≤ 2 → ∀ j, j + 1 < ([0, 10] : List ℚ).length →
      MIN_SEPARATION ≤ (resolveSweep [0, 10]).getD (j + 1) 0 -
        (resolveSweep [0, 10]).getD j 0) :=
  C5_order_preserved_separation_two [0, 10] (fun j hj => by
    have hj0 : j = 0 := by
      simp only [List.length_cons, List.length_nil] at hj
      omega
    subst hj0
    decide)

/-- A movement iteration for slot `dj` touches no other drone entry. -/
theorem moveOne_get?_ne (s : State) (dj i : ℕ) (h : i ≠ dj - 1) :
    (moveOne s dj).drones.get? i = s.drones.get? i := by
  unfold moveOne
  split
  · rfl
  · split
    · rfl
    · simp only [List.get?_eq_getElem?]
      rw [List.getElem?_set_ne (fun hc => h hc.symm)]

/-- Folding movement iterations whose slots all differ from `i + 1` leaves
drone entry `i` untouched. -/
theorem foldl_moveOne_get?_of_ne (l : List ℕ) (s : State) (i : ℕ)
    (h : ∀ dj ∈ l, dj - 1 ≠ i) :
    (l.foldl moveOne s).drones.get? i = s.drones.get? i := by
  induction l generalizing s with
  | nil => rfl
  | cons x t ih =>
    rw [List.foldl_cons, ih _ (fun dj hd => h dj (List.mem_cons_of_mem x hd)),
      moveOne_get?_ne s x i (fun hc => (h x (List.mem_cons_self x t)) hc.symm)]

/-- A movement iteration for a staged slot is a no-op. -/
theorem moveOne_of_staged (s : State) (di : ℕ) (d : Drone)
    (hget : s.drones.get? (di - 1) = some d) (hd : d.deployed = false) :
    moveOne s di = s := by
  unfold moveOne
  split
  · rfl
  next d' hget' =>
    rw [hget] at hget'
    injection hget' with hdd
    split
    · rfl
    next hd' =>
      rw [hdd] at hd
      exact absurd hd hd'

/-- C6 (amended): the movement phase is a SEQUENTIAL ascending pass over the
slots; each deployed relay's final entry is produced by its own iteration
applied to the state in which all lower slots have already moved (so it
reads its INDEX-adjacent nodes `di-1`, `di+1` — which may be a staged relay
or an endpoint — at their possibly already-updated positions); staged
relays are left untouched and no deployment flag changes. -/
theorem C6_sequential_index_neighbors (s : State) (di : ℕ) (h1 : 1 ≤ di)
    (h2 : di ≤ s.drones.length) :
    (movePhase s).drones.get? (di - 1) =
      (moveOne ((List.range' 1 (di - 1)).foldl moveOne s) di).drones.get? (di - 1) ∧
    (∀ d, s.drones.get? (di - 1) = some d → d.deployed = false →
      (movePhase s).drones.get? (di - 1) = s.drones.get? (di - 1)) ∧
    flagsOf (movePhase s) = flagsOf s := by
  have hsplit : List.range' 1 s.drones.length =
      List.range' 1 (di - 1) ++ List.range' di (s.drones.length - di + 1) := by
    have h := List.range'_append 1 (di - 1) (s.drones.length - di + 1) 1
    rw [show 1 + 1 * (di - 1) = di by omega,
      show s.drones.length - di + 1 + (di - 1) = s.drones.length by omega] at h
    exact h.symm
  have hcons : List.range' di (s.drones.length - di + 1) =
      di :: List.range' (di + 1) (s.drones.length - di) := by
    rw [show s.drones.length - di + 1 = (s.drones.length - di) + 1 from rfl,
      List.range'_succ]
  have hmid : movePhase s =
      (List.range' (di + 1) (s.drones.length - di)).foldl moveOne
        (moveOne ((List.range' 1 (di - 1)).foldl moveOne s) di) := by
    unfold movePhase
    rw [hsplit, List.foldl_append, hcons, List.foldl_cons]
  have hpart1 : (movePhase s).drones.get? (di - 1) =
      (moveOne ((List.range' 1 (di - 1)).foldl moveOne s) di).drones.get? (di - 1) := by
    rw [hmid]
    apply foldl_moveOne_get?_of_ne
    intro dj hdj
    have := List.mem_range'_1.mp hdj
    omega
  refine ⟨hpart1, ?_, flagsOf_movePhase s⟩
  intro d hget hd
  have hmidget : ((List.range' 1 (di - 1)).foldl moveOne s).drones.get? (di - 1) =
      s.drones.get? (di - 1) := by
    apply foldl_moveOne_get?_of_ne
    intro dj hdj
    have := List.mem_range'_1.mp hdj
    omega
  rw [hpart1, moveOne_of_staged _ di d (by rw [hmidget]; exact hget) hd, hmidget]

/-- Witness for the amended C6: slot 2 of `sBal`, whose update reads drone
1's already-moved position and the staged drone 3 —
`C6_sequential_index_neighbors` applied at `sBal`. -/
theorem C6_sequential_index_neighbors_witness :
    (movePhase sBal).drones.get? 1 =
      (moveOne ((List.range' 1 1).foldl moveOne sBal) 2).drones.get? 1 ∧
    (∀ d, sBal.drones.get? 1 = some d → d.deployed = false →
      (movePhase sBal).drones.get? 1 = sBal.drones.get? 1) ∧
    flagsOf (movePhase sBal) = flagsOf sBal :=
  C6_sequential_index_neighbors sBal 2 (by norm_num) (by decide)

/-- sqrt evaluation helper: √(q : ℚ) = r when r² = q and 0 ≤ r. -/
theorem sqrt_rat_eq (q : ℚ) (r : ℝ) (h : r ^ 2 = (q : ℝ)) (hr : 0 ≤ r) :
    Real.sqrt ((q : ℚ) : ℝ) = r := by
  rw [← h, Real.sqrt_sq hr]

/-- The movement iteration of slot 1 at `sBal`: 12.5 m to the user on the
left versus 7 m to drone 2 on the right exceeds the 3 m threshold, so the
drone moves +3 m. -/
theorem moveOne_sBal_1 : moveOne sBal 1 = sBal1 := by
  have dA : nsDist ⟨31, 0, 10⟩ ⟨77/2, 0, 0⟩ = 25/2 := by
    unfold nsDist
    apply sqrt_rat_eq <;> norm_num
  have dB : nsDist ⟨31, 0, 10⟩ ⟨24, 0, 10⟩ = 7 := by
    unfold nsDist
    apply sqrt_rat_eq <;> norm_num
  unfold moveOne
  rw [show sBal.drones.get? (1 - 1) = some ⟨⟨31, 0, 10⟩, vec0, true⟩ from rfl]
  dsimp only
  rw [if_neg (by decide : ¬ (true = false))]
  rw [show nodePosOf sBal (1 - 1) = ⟨77/2, 0, 0⟩ from rfl,
    show nodePosOf sBal (1 + 1) = ⟨24, 0, 10⟩ from rfl, dA, dB]
  rw [if_pos (by norm_num [g_rssiMoveThresholdDb] :
    (25/2 : ℝ) - 7 > g_rssiMoveThresholdDb)]
  norm_num [sBal, sBal1, sInit, vec0, g_moveSpeed, g_balanceInterval]

/-- The movement iteration of slot 2 at `sBal1`: 10 m to drone 1's
already-updated position on the left versus 12 m to the STAGED drone 3 on
the right — a 2 m imbalance, below the threshold, so the drone stays. -/
theorem moveOne_sBal1_2 : moveOne sBal1 2 = sBal2 := by
  have dC : nsDist ⟨24, 0, 10⟩ ⟨34, 0, 10⟩ = 10 := by
    unfold nsDist
    apply sqrt_rat_eq <;> norm_num
  have dD : nsDist ⟨24, 0, 10⟩ ⟨12, 0, 10⟩ = 12 := by
    unfold nsDist
    apply sqrt_rat_eq <;> norm_num
  unfold moveOne
  rw [show sBal1.drones.get? (2 - 1) = some ⟨⟨24, 0, 10⟩, vec0, true⟩ from rfl]
  dsimp only
  rw [if_neg (by decide : ¬ (true = false))]
  rw [show nodePosOf sBal1 (2 - 1) = ⟨34, 0, 10⟩ from rfl,
    show nodePosOf sBal1 (2 + 1) = ⟨12, 0, 10⟩ from rfl, dC, dD]
  rw [if_neg (by norm_num [g_rssiMoveThresholdDb] :
      ¬ ((10 : ℝ) - 12 > g_rssiMoveThresholdDb)),
    if_neg (by norm_num [g_rssiMoveThresholdDb] :
      ¬ ((10 : ℝ) - 12 < -g_rssiMoveThresholdDb))]
  norm_num [sBal, sBal1, sBal2, sInit, vec0, g_balanceInterval]

/-- The movement iteration of slot 3 at `sBal2` is a no-op: drone 3 is
staged. -/
theorem moveOne_sBal2_3 : moveOne sBal2 3 = sBal2 :=
  moveOne_of_staged sBal2 3 ⟨⟨12, 0, 10⟩, vec0, false⟩ rfl rfl

/-- The whole movement phase at `sBal`. -/
theorem movePhase_sBal : movePhase sBal = sBal2 := by
  unfold movePhase
  rw [show sBal.drones.length = 3 from rfl, show List.range' 1 3 = [1, 2, 3] from rfl,
    List.foldl_cons, moveOne_sBal_1, List.foldl_cons, moveOne_sBal1_2, List.foldl_cons,
    moveOne_sBal2_3, List.foldl_nil]

/-- Counterexample to C6 as stated: at `sBal`, the claim's simultaneous
chain-neighbour update (drone 2 reads drone 1's START-of-tick position 7 m
away and the AP, its true active-chain neighbour, 26 m away — a 19 m
imbalance) would move drone 2 to x = 21; the code's sequential
index-neighbour pass (drone 2 reads drone 1's ALREADY-UPDATED position 10 m
away and the STAGED drone 3 12 m away) leaves drone 2 at x = 24. The two
final states differ, so the claim's description of the tick is false. -/
theorem C6_counterexample_sequential_vs_simultaneous :
    ((movePhase sBal).drones.get? 1).map (fun d => d.pos.x) = some 24 ∧
    ((movePhaseSimultaneous sBal).drones.get? 1).map (fun d => d.pos.x) = some 21 ∧
    movePhase sBal ≠ movePhaseSimultaneous sBal := by
  have dE : nsDist ⟨24, 0, 10⟩ ⟨31, 0, 10⟩ = 7 := by
    unfold nsDist
    apply sqrt_rat_eq <;> norm_num
  have dF : nsDist ⟨24, 0, 10⟩ ⟨0, 0, 0⟩ = 26 := by
    unfold nsDist
    apply sqrt_rat_eq <;> norm_num
  have hseq : ((movePhase sBal).drones.get? 1).map (fun d => d.pos.x) = some 24 := by
    rw [movePhase_sBal]
    rfl
  have dG : nsDist ⟨31, 0, 10⟩ ⟨77/2, 0, 0⟩ = 25/2 := by
    unfold nsDist
    apply sqrt_rat_eq <;> norm_num
  have dH : nsDist ⟨31, 0, 10⟩ ⟨24, 0, 10⟩ = 7 := by
    unfold nsDist
    apply sqrt_rat_eq <;> norm_num
  have hsimState : movePhaseSimultaneous sBal = sBalSim := by
    unfold movePhaseSimultaneous
    rw [show sBal.drones.enum = [(0, ⟨⟨31, 0, 10⟩, vec0, true⟩),
      (1, ⟨⟨24, 0, 10⟩, vec0, true⟩), (2, ⟨⟨12, 0, 10⟩, vec0, false⟩)] from rfl]
    simp only [List.map_cons, List.map_nil]
    dsimp only
    rw [show leftChainNbrPos sBal 0 = ⟨77/2, 0, 0⟩ from rfl,
      show rightChainNbrPos sBal 0 = ⟨24, 0, 10⟩ from rfl,
      show leftChainNbrPos sBal 1 = ⟨31, 0, 10⟩ from rfl,
      show rightChainNbrPos sBal 1 = ⟨0, 0, 0⟩ from rfl]
    rw [dG, dH, dE, dF]
    rw [if_pos (by norm_num [g_rssiMoveThresholdDb] :
        (25/2 : ℝ) - 7 > g_rssiMoveThresholdDb),
      if_neg (by norm_num [g_rssiMoveThresholdDb] :
        ¬ ((7 : ℝ) - 26 > g_rssiMoveThresholdDb)),
      if_pos (by norm_num [g_rssiMoveThresholdDb] :
        (7 : ℝ) - 26 < -g_rssiMoveThresholdDb)]
    norm_num [sBal, sBalSim, sInit, vec0, g_moveSpeed, g_balanceInterval]
  have hsim : ((movePhaseSimultaneous sBal).drones.get? 1).map (fun d => d.pos.x) =
      some 21 := by
    rw [hsimState]
    rfl
  refine ⟨hseq, hsim, fun heq => ?_⟩
  rw [movePhase_sBal, hsimState] at heq
  have := congrArg (fun t => (t.drones.get? 1).map (fun d => d.pos.x)) heq
  simp only at this
  rw [show ((sBal2.drones.get? 1).map (fun d => d.pos.x)) = some 24 from rfl,
    show ((sBalSim.drones.get? 1).map (fun d => d.pos.x)) = some 21 from rfl] at this
  exact absurd this (by norm_num)

end DroneDeploy
